import Mathlib

/-!
Verification of the outlook-agent scheduling core against its specification.

The development shallowly embeds the TypeScript sources:
  * the two revisions of detectConflicts (union-find revision and naive
    pairwise revision) together with the shared interval overlap test,
  * the rule engine (calculateEventPriority, determineConflictAction),
  * the availability searchers of the reschedule and create commands,
  * the DecisionMemory class (recordDecision, cleanup, loading, pattern
    mining, statistics).

Conventions of the embedding:
  * JavaScript Date instants are modelled as integers counting minutes;
    all Date comparisons in the sources are affine, so the unit choice is
    irrelevant. toDateString equality is modelled as equality of floor
    division by 1440 (minutes per day).
  * JavaScript number arithmetic on counts and rates is modelled with
    exact rationals (mkRat); the comparisons performed by the code are
    never at floating point granularity for list-length operands.
  * Unbounded while loops and the recursive union-find find are modelled
    with structural fuel chosen large enough for the measure that makes
    the original recursion terminate; lemmas establish the behaviour on
    all inputs reachable by the program.
-/

namespace Conflicts

/-- Calendar event as consumed by detectConflicts: identifier, subject,
start and end instants, all-day flag, show-as status and the response
status of the current user. -/
structure CalendarEvent where
  id : String
  subject : String
  startT : Int
  endT : Int
  isAllDay : Bool
  showAs : String
  respStatus : Option String
deriving DecidableEq, Inhabited, Repr

/-- Overlap test of the union-find revision (eventsOverlap in the source):
three disjuncts comparing the start and end instants of the two events. -/
def eventsOverlap (event1 event2 : CalendarEvent) : Bool :=
  let start1 := event1.startT
  let end1 := event1.endT
  let start2 := event2.startT
  let end2 := event2.endT
  (decide (start2 ≥ start1) && decide (start2 < end1)) ||
  (decide (end2 > start1) && decide (end2 ≤ end1)) ||
  (decide (start2 ≤ start1) && decide (end2 ≥ end1))

/-- Inline overlap test of the naive revision: textually the same three
disjuncts, applied to the pivot interval and the compared interval. -/
def overlapsNaive (eventStart eventEnd compareStart compareEnd : Int) : Bool :=
  (decide (compareStart ≥ eventStart) && decide (compareStart < eventEnd)) ||
  (decide (compareEnd > eventStart) && decide (compareEnd ≤ eventEnd)) ||
  (decide (compareStart ≤ eventStart) && decide (compareEnd ≥ eventEnd))

/-- Filter applied by both revisions: drop events whose subject starts with
the Declined prefix, all-day events, events shown as free, and events the
user declined. -/
def isActiveEvent (event : CalendarEvent) : Bool :=
  !(event.subject.startsWith ("Declined:")) &&
  !event.isAllDay &&
  !(event.showAs = "free" : Bool) &&
  !(event.respStatus = some ("declined") : Bool)

/-- Stable insertion into a list sorted ascending by start instant. -/
def insertByStart (e : CalendarEvent) : List CalendarEvent → List CalendarEvent
  | [] => [e]
  | f :: fs => if f.startT ≤ e.startT then f :: insertByStart e fs else e :: f :: fs

/-- Stable ascending sort by start instant, modelling the sort call with
the start time comparator (Array.prototype.sort is stable). -/
def sortByStart : List CalendarEvent → List CalendarEvent
  | [] => []
  | e :: es => insertByStart e (sortByStart es)

/-- The filtered and sorted event list both revisions operate on. -/
def activeSorted (events : List CalendarEvent) : List CalendarEvent :=
  sortByStart (events.filter isActiveEvent)

/-- Union-find state of the source class: a parent array and a rank array,
modelled as lists of naturals. -/
structure UnionFind where
  parent : List Nat
  rank : List Nat
deriving DecidableEq, Repr

/-- Parent lookup; out of range indices behave as their own parent, which
is unreachable in the program since all accesses are below the size. -/
def parentD (p : List Nat) (i : Nat) : Nat := p.getD i i

/-- Rank lookup with default zero. -/
def rankD (r : List Nat) (i : Nat) : Nat := r.getD i 0

/-- Constructor call new UnionFind(size): parent i = i, rank i = 0. -/
def ufInit (size : Nat) : UnionFind :=
  { parent := List.range size, rank := List.replicate size 0 }

/-- Structural fuel bound used to run the find recursion: one more than
the largest stored rank.  Along a parent chain the ranks strictly
increase, so this many steps always reach the root. -/
def UnionFind.rankMax (uf : UnionFind) : Nat := uf.rank.foldr max 0 + 1

/-- The find method with path compression: returns the updated parent list
and the root.  The recursion mirrors the source: the recursive call runs
on the unmodified state and the entry of x is then redirected to the
returned root. -/
def findAux : Nat → List Nat → Nat → List Nat × Nat
  | 0, p, x => (p, x)
  | fuel + 1, p, x =>
    let y := parentD p x
    if y = x then (p, x)
    else
      let r := findAux fuel p y
      (r.1.set x r.2, r.2)

/-- The find method on the bundled state. -/
def UnionFind.find (uf : UnionFind) (x : Nat) : UnionFind × Nat :=
  let r := findAux uf.rankMax uf.parent x
  ({ parent := r.1, rank := uf.rank }, r.2)

/-- Root of a node without compression: the specification view of find,
used to state and prove properties of the evolving state. -/
def rootAux : Nat → List Nat → Nat → Nat
  | 0, _, x => x
  | fuel + 1, p, x =>
    let y := parentD p x
    if y = x then x else rootAux fuel p y

/-- Root of a node in a bundled state. -/
def UnionFind.rootD (uf : UnionFind) (x : Nat) : Nat := rootAux uf.rankMax uf.parent x

/-- The union method: two finds (with their compressions), then link by
rank exactly as the source does, bumping the rank of rootX on ties. -/
def UnionFind.union (uf : UnionFind) (x y : Nat) : UnionFind :=
  let f1 := uf.find x
  let rootX := f1.2
  let f2 := f1.1.find y
  let rootY := f2.2
  let uf2 := f2.1
  if rootX = rootY then uf2
  else if rankD uf2.rank rootX < rankD uf2.rank rootY then
    { parent := uf2.parent.set rootX rootY, rank := uf2.rank }
  else if rankD uf2.rank rootY < rankD uf2.rank rootX then
    { parent := uf2.parent.set rootY rootX, rank := uf2.rank }
  else
    { parent := uf2.parent.set rootY rootX,
      rank := uf2.rank.set rootX (rankD uf2.rank rootX + 1) }

/-- Insertion-ordered bucket map keyed by root, modelling the Map used by
getGroups: a new key is appended, an existing key has the index pushed at
the end of its group. -/
def addToBuckets (bs : List (Nat × List Nat)) (root i : Nat) : List (Nat × List Nat) :=
  match bs with
  | [] => [(root, [i])]
  | (r, g) :: rest =>
    if r = root then (r, g ++ [i]) :: rest else (r, g) :: addToBuckets rest root i

/-- The getGroups method: for every index in order, find its root (with
compression threading the state) and bucket it; keep groups of size at
least two. -/
def UnionFind.getGroups (uf : UnionFind) : List (List Nat) :=
  let r := (List.range uf.parent.length).foldl
    (fun s i =>
      let fr := s.1.find i
      (fr.1, addToBuckets s.2 fr.2 i))
    (uf, ([] : List (Nat × List Nat)))
  (r.2.map Prod.snd).filter (fun group => 1 < group.length)

/-- All index pairs (i, j) with i < j < n, in the nested loop order of the
source. -/
def pairsUpTo (n : Nat) : List (Nat × Nat) :=
  (List.range n).flatMap (fun i => (List.range' (i + 1) (n - (i + 1))).map (fun j => (i, j)))

/-- The union loop of the union-find revision: union every overlapping
pair of the sorted event list. -/
def buildUF (se : List CalendarEvent) : UnionFind :=
  (pairsUpTo se.length).foldl
    (fun uf pr =>
      if eventsOverlap (se.getD pr.1 default) (se.getD pr.2 default) then uf.union pr.1 pr.2
      else uf)
    (ufInit se.length)

/-- Index groups produced by the union-find revision on a sorted list. -/
def conflictIndexGroups (se : List CalendarEvent) : List (List Nat) :=
  (buildUF se).getGroups

/-- Minimum of a list of instants; only applied to non-empty lists
(Math.min over the group of start times). -/
def listMinD (l : List Int) : Int :=
  match l with
  | [] => 0
  | x :: xs => xs.foldl min x

/-- Maximum of a list of instants; only applied to non-empty lists. -/
def listMaxD (l : List Int) : Int :=
  match l with
  | [] => 0
  | x :: xs => xs.foldl max x

/-- Conflict group as returned by both revisions. -/
structure EventConflict where
  events : List CalendarEvent
  startTime : Int
  endTime : Int
deriving DecidableEq, Repr

/-- Conflict record for a group of events: the events plus the enclosing
time range. -/
def mkConflict (events : List CalendarEvent) : EventConflict :=
  { events := events
    startTime := listMinD (events.map (fun e => e.startT))
    endTime := listMaxD (events.map (fun e => e.endT)) }

/-- The union-find revision of detectConflicts (part 006 of the source):
filter, sort, early return below two events, union overlapping pairs,
convert each group of the union-find to an EventConflict. -/
def detectConflicts (events : List CalendarEvent) : List EventConflict :=
  let sortedEvents := activeSorted events
  if sortedEvents.length < 2 then []
  else
    (conflictIndexGroups sortedEvents).map
      (fun group => mkConflict (group.map (fun i => sortedEvents.getD i default)))

/-- Group collected for pivot index i by the naive revision: the pivot
followed by every later event whose interval passes the inline overlap
test against the pivot. -/
def naiveGroup (se : List CalendarEvent) (i : Nat) : List CalendarEvent :=
  let pivot := se.getD i default
  pivot ::
    ((List.range' (i + 1) (se.length - (i + 1))).filter
        (fun j =>
          overlapsNaive pivot.startT pivot.endT (se.getD j default).startT
            (se.getD j default).endT)).map
      (fun j => se.getD j default)

/-- One iteration of the naive revision loop: record the pivot group when
it has at least two members and shares no event id with an already
recorded conflict. -/
def naiveStep (se : List CalendarEvent) (conflicts : List EventConflict) (i : Nat) :
    List EventConflict :=
  let conflictGroup := naiveGroup se i
  if 1 < conflictGroup.length then
    if conflicts.any (fun c => c.events.any (fun e => conflictGroup.any (fun ce => ce.id = e.id)))
    then conflicts
    else conflicts ++ [mkConflict conflictGroup]
  else conflicts

/-- The naive pairwise revision of detectConflicts (part 007 of the
source). -/
def detectConflictsNaive (events : List CalendarEvent) : List EventConflict :=
  let sortedEvents := activeSorted events
  (List.range sortedEvents.length).foldl (naiveStep sortedEvents) []

/-- Chain of pairwise overlaps between indices of the sorted list: the
equivalence closure of the edges the union loop feeds to the union-find
structure. -/
def overlapChain (se : List CalendarEvent) (a b : Nat) : Prop :=
  Relation.EqvGen
    (fun i j =>
      i < j ∧ j < se.length ∧
        eventsOverlap (se.getD i default) (se.getD j default) = true)
    a b

/-- Well-formedness of a union-find state: the rank list has the length
of the parent list, parent entries stay inside the structure, and ranks
strictly increase along parent edges.  The constructor establishes it and
every method preserves it. -/
def UFInv (uf : UnionFind) : Prop :=
  uf.rank.length = uf.parent.length ∧
  (∀ i, i < uf.parent.length → parentD uf.parent i < uf.parent.length) ∧
  (∀ i, parentD uf.parent i ≠ i → rankD uf.rank i < rankD uf.rank (parentD uf.parent i))

/-- Two nodes are equivalent when they have the same root. -/
def UnionFind.Equiv (uf : UnionFind) (a b : Nat) : Prop := uf.rootD a = uf.rootD b

/-- Pure view of the bucket construction of getGroups: bucket every index
of the list by the value of f, in order. -/
def bucketsFor (f : Nat → Nat) (xs : List Nat) : List (Nat × List Nat) :=
  xs.foldl (fun bs i => addToBuckets bs (f i) i) []

/-- Concrete event constructor for the instantiations of the grouping
claims. -/
def mkBusyEvent (i : String) (s e : Int) : CalendarEvent :=
  { id := i, subject := "meeting", startT := s, endT := e, isAllDay := false,
    showAs := "busy", respStatus := none }

/-- Chain example: four events where a overlaps b, b overlaps c and d, c
overlaps d, but a does not overlap c or d. -/
def chainEvA : CalendarEvent := mkBusyEvent ("a") 0 10

/-- Second event of the chain example. -/
def chainEvB : CalendarEvent := mkBusyEvent ("b") 5 20

/-- Third event of the chain example. -/
def chainEvC : CalendarEvent := mkBusyEvent ("c") 12 18

/-- Fourth event of the chain example. -/
def chainEvD : CalendarEvent := mkBusyEvent ("d") 15 30

end Conflicts

namespace Rules

/-- Attendee count range condition of a priority rule. -/
structure AttendeesCount where
  min : Option Nat
  max : Option Nat

/-- A priority rule predicate.  Subjects and addresses are modelled as
character lists; the two regular expression fields are modelled by the
case-insensitive test predicates the compiled expressions denote, since
the regular expression engine itself is outside the embedding. -/
structure PriorityRule where
  pattern : Option (List Char → Bool)
  excludePattern : Option (List Char → Bool)
  keywords : Option (List (List Char))
  description : Option String
  attendeesCount : Option AttendeesCount
  organizerPatterns : Option (List (List Char))
  responseRequired : Option Bool

/-- The four priority tiers of a rule set; a missing tier behaves as the
empty list. -/
structure Priorities where
  critical : Option (List PriorityRule)
  high : Option (List PriorityRule)
  medium : Option (List PriorityRule)
  low : Option (List PriorityRule)

/-- One priority difference rule of the conflict resolution section. -/
structure PriorityDiffRule where
  ifDiffGreaterThan : Option Int
  ifDiffLessThan : Option Int
  thenAction : String
  description : Option String

/-- The rules section of a rule set; fields not consulted by the claims
under verification (time preferences, buffer times, special rules) are
omitted from the embedding. -/
structure RulesSection where
  priorityDifference : Option (List PriorityDiffRule)

/-- A scheduling rule set; sections not consulted by the embedded
functions (learning, notifications, messages) are omitted. -/
structure SchedulingRules where
  version : Int
  priorities : Priorities
  rules : Option RulesSection

/-- Event attributes consulted by calculateEventPriority after its
defaulting of missing fields: subject, attendee count, organizer
address. -/
structure RuleEvent where
  subject : List Char
  attendeesCount : Nat
  organizer : List Char

/-- Case-insensitive substring containment, modelling the includes call
on lowercased strings. -/
def charsContains : List Char → List Char → Bool
  | hay, sub =>
    if sub.isPrefixOf hay then true
    else
      match hay with
      | [] => false
      | _ :: t => charsContains t sub

/-- Lowercasing of a character list. -/
def toLowerChars (s : List Char) : List Char := s.map Char.toLower

/-- checkPatternMatch: the pattern must match when present and the
exclude pattern must not match when present. -/
def checkPatternMatch (subject : List Char) (rule : PriorityRule) : Bool :=
  (match rule.pattern with
    | some test => test subject
    | none => true) &&
  (match rule.excludePattern with
    | some test => !test subject
    | none => true)

/-- checkKeywordMatch: vacuously true without keywords, otherwise some
keyword is a case-insensitive substring of the subject. -/
def checkKeywordMatch (subject : List Char) (rule : PriorityRule) : Bool :=
  match rule.keywords with
  | none => true
  | some kws =>
    if kws.isEmpty then true
    else kws.any (fun keyword => charsContains (toLowerChars subject) (toLowerChars keyword))

/-- checkAttendeesCount: the count respects the optional min and max. -/
def checkAttendeesCount (attendeesCount : Nat) (rule : PriorityRule) : Bool :=
  match rule.attendeesCount with
  | none => true
  | some range =>
    (match range.min with
      | some m => decide (attendeesCount ≥ m)
      | none => true) &&
    (match range.max with
      | some m => decide (attendeesCount ≤ m)
      | none => true)

/-- checkOrganizerPattern: vacuously true without patterns, otherwise the
organizer address contains one of the patterns. -/
def checkOrganizerPattern (organizer : List Char) (rule : PriorityRule) : Bool :=
  match rule.organizerPatterns with
  | none => true
  | some pats =>
    if pats.isEmpty then true
    else pats.any (fun pat => charsContains organizer pat)

/-- matchesRule: conjunction of the four checks. -/
def matchesRule (subject : List Char) (attendeesCount : Nat) (organizer : List Char)
    (rule : PriorityRule) : Bool :=
  checkPatternMatch subject rule &&
  checkKeywordMatch subject rule &&
  checkAttendeesCount attendeesCount rule &&
  checkOrganizerPattern organizer rule

/-- Whether some rule of an optional tier matches the event; a missing
tier holds no rules. -/
def tierMatchesAny (event : RuleEvent) (tier : Option (List PriorityRule)) : Bool :=
  (tier.getD []).any
    (fun rule => matchesRule event.subject event.attendeesCount event.organizer rule)

/-- Tier configuration assembled by calculateEventPriority. -/
structure PriorityConfig where
  rules : List PriorityRule
  score : Int
  level : String
  description : String

/-- Result of a tier check. -/
structure PriorityResult where
  score : Int
  level : String
  reason : String
deriving DecidableEq, Repr

/-- checkPriorityLevel: first matching rule of the tier wins, carrying
the rule description or the tier description as reason. -/
def checkPriorityLevel (subject : List Char) (attendeesCount : Nat) (organizer : List Char)
    (config : PriorityConfig) : Option PriorityResult :=
  match config.rules.find? (fun rule => matchesRule subject attendeesCount organizer rule) with
  | some rule =>
    some { score := config.score, level := config.level
           reason := rule.description.getD config.description }
  | none => none

/-- Result of calculateEventPriority. -/
structure EventPriority where
  score : Int
  level : String
  reasons : List String
deriving DecidableEq, Repr

/-- calculateEventPriority: evaluate the four tiers in order critical,
high, medium, low; the first tier with a matching rule yields its score
and level; otherwise the default of score 50, level medium, reason
Default priority. -/
def calculateEventPriority (event : RuleEvent) (rules : SchedulingRules) : EventPriority :=
  let priorityLevels : List PriorityConfig :=
    [ { rules := rules.priorities.critical.getD [], score := 100, level := "critical"
        description := "Critical priority match" }
    , { rules := rules.priorities.high.getD [], score := 75, level := "high"
        description := "High priority match" }
    , { rules := rules.priorities.medium.getD [], score := 50, level := "medium"
        description := "Medium priority match" }
    , { rules := rules.priorities.low.getD [], score := 25, level := "low"
        description := "Low priority match" } ]
  match priorityLevels.findSome?
      (fun config => checkPriorityLevel event.subject event.attendeesCount event.organizer config)
    with
  | some result => { score := result.score, level := result.level, reasons := [result.reason] }
  | none => { score := 50, level := "medium", reasons := ["Default priority"] }

/-- Action decision returned by determineConflictAction. -/
structure ConflictAction where
  action : String
  description : String
deriving DecidableEq, Repr

/-- Threshold predicate of one priority difference rule: the first branch
of the loop body (defined greater-than bound exceeded) or the second
(defined less-than bound undercut); both branches return the same
payload, so the two ifs collapse to one disjunctive test. -/
def pdHit (priorityDiff : Int) (rule : PriorityDiffRule) : Bool :=
  (match rule.ifDiffGreaterThan with
    | some v => decide (priorityDiff > v)
    | none => false) ||
  (match rule.ifDiffLessThan with
    | some v => decide (priorityDiff < v)
    | none => false)

/-- determineConflictAction: early manual decision without a configured
priority difference list, otherwise the first rule whose threshold
predicate holds, otherwise manual decision. -/
def determineConflictAction (priorityDiff : Int) (rules : SchedulingRules) : ConflictAction :=
  match rules.rules.bind (fun r => r.priorityDifference) with
  | none => { action := "manual_decision", description := "No rules defined" }
  | some prs =>
    match prs.find? (fun rule => pdHit priorityDiff rule) with
    | some rule => { action := rule.thenAction, description := rule.description.getD "" }
    | none => { action := "manual_decision", description := "No matching rule" }

/-- Concrete keyword rule used to instantiate the rule engine claims. -/
def sampleKeywordRule : PriorityRule :=
  { pattern := none, excludePattern := none
    keywords := some [['b', 'o', 'a', 'r', 'd']]
    description := some "Board meeting"
    attendeesCount := none, organizerPatterns := none, responseRequired := none }

/-- Concrete event used to instantiate the rule engine claims. -/
def sampleRuleEvent : RuleEvent :=
  { subject := ['B', 'o', 'a', 'r', 'd'], attendeesCount := 3, organizer := [] }

/-- Concrete rule set where the keyword rule sits in both the critical
and the low tier. -/
def sampleRules : SchedulingRules :=
  { version := 1
    priorities :=
      { critical := some [sampleKeywordRule], high := none, medium := none
        low := some [sampleKeywordRule] }
    rules := none }

/-- Concrete priority difference rule used by the resolver claims. -/
def samplePdRule : PriorityDiffRule :=
  { ifDiffGreaterThan := some 50, ifDiffLessThan := none
    thenAction := "reschedule_lower_priority", description := some "Large gap" }

/-- Concrete rule set with one configured priority difference rule. -/
def samplePdRules : SchedulingRules :=
  { version := 1
    priorities := { critical := none, high := none, medium := none, low := none }
    rules := some { priorityDifference := some [samplePdRule] } }

end Rules

namespace Slots

/-- Day bucket of an instant, modelling toDateString and isSameDayJST
comparisons: floor division of the minute instant by minutes per day. -/
def dayOf (t : Int) : Int := t.fdiv 1440

/-- Calendar event of the own-calendar feed, already carrying parsed
start and end instants (the source builds them from dateTime strings and
time zone suffixes). -/
structure MyEvent where
  id : String
  subject : String
  startT : Int
  endT : Int
  isAllDay : Bool
  showAs : String
deriving DecidableEq, Repr

/-- One busy window of the free busy feed of an attendee. -/
structure Busy where
  bstart : Int
  bend : Int
  status : String
deriving DecidableEq, Repr

/-- hasTimeConflict, shared by the reschedule and create searchers: the
three interval disjuncts. -/
def hasTimeConflict (slotStart slotEnd eventStart eventEnd : Int) : Bool :=
  (decide (slotStart ≥ eventStart) && decide (slotStart < eventEnd)) ||
  (decide (slotEnd > eventStart) && decide (slotEnd ≤ eventEnd)) ||
  (decide (slotStart ≤ eventStart) && decide (slotEnd ≥ eventEnd))

/-- isMyCalendarAvailable of the reschedule searcher: skip the selected
event, skip events on another day, block on a non free all-day event of
the day, block on a non free time conflict. -/
def isMyCalendarAvailable (currentTime slotEnd : Int) (selectedId : String)
    (myEvents : List MyEvent) : Bool :=
  myEvents.all (fun event =>
    if event.id = selectedId then true
    else if dayOf event.startT ≠ dayOf currentTime ∧ dayOf event.endT ≠ dayOf currentTime then
      true
    else
      (if event.isAllDay ∧ dayOf event.startT = dayOf currentTime then
        (event.showAs = "free" : Bool)
      else true) &&
      (if hasTimeConflict currentTime slotEnd event.startT event.endT then
        (event.showAs = "free" : Bool)
      else true))

/-- areAttendeesAvailable of the reschedule searcher: every busy window of
every attendee either has status free or does not conflict with the
slot. -/
def areAttendeesAvailable (currentTime slotEnd : Int) (schedules : List (List Busy)) : Bool :=
  schedules.all (fun busyTimes =>
    busyTimes.all (fun busy =>
      if busy.status = "free" then true
      else !hasTimeConflict currentTime slotEnd busy.bstart busy.bend))

/-- isSlotAvailable of the reschedule searcher. -/
def isSlotAvailable (currentTime slotEnd : Int) (selectedId : String)
    (myEvents : List MyEvent) (schedules : List (List Busy)) : Bool :=
  isMyCalendarAvailable currentTime slotEnd selectedId myEvents &&
  areAttendeesAvailable currentTime slotEnd schedules

/-- The slot stepping loop of findSlotsForDay in the reschedule command:
while the slot fits before the search end, skip the original start of the
selected event, collect available slots, advance by thirty minutes.  The
structural fuel is chosen by the caller to exceed the number of
iterations. -/
def slotLoop (duration searchEndTime selectedStart : Int) (selectedId : String)
    (myEvents : List MyEvent) (schedules : List (List Busy)) :
    Nat → Int → List (Int × Int)
  | 0, _ => []
  | fuel + 1, currentTime =>
    if currentTime < searchEndTime ∧ currentTime + duration ≤ searchEndTime then
      let slotEnd := currentTime + duration
      if currentTime = selectedStart then
        slotLoop duration searchEndTime selectedStart selectedId myEvents schedules fuel
          (currentTime + 30)
      else if isSlotAvailable currentTime slotEnd selectedId myEvents schedules then
        (currentTime, slotEnd) ::
          slotLoop duration searchEndTime selectedStart selectedId myEvents schedules fuel
            (currentTime + 30)
      else
        slotLoop duration searchEndTime selectedStart selectedId myEvents schedules fuel
          (currentTime + 30)
    else []

/-- findSlotsForDay of the reschedule command.  dayNine is the nine
o'clock instant of the searched day; the search end is ten hours later.
On the first day the start is clamped to now plus thirty minutes when
that is later than nine o'clock. -/
def findSlotsForDay (dayNine now duration selectedStart : Int) (selectedId : String)
    (myEvents : List MyEvent) (schedules : List (List Busy)) (dayIndex : Nat) :
    List (Int × Int) :=
  let searchEndTime := dayNine + 600
  let searchStartTime :=
    if dayIndex = 0 then
      let minStartTime := now + 30
      if minStartTime > dayNine then minStartTime else dayNine
    else dayNine
  slotLoop duration searchEndTime selectedStart selectedId myEvents schedules
    ((searchEndTime - searchStartTime).toNat + 1) searchStartTime

/-- Free busy schedule of one attendee in the create command: the fixed
width availability view string and the busy windows. -/
structure CreateSchedule where
  availabilityView : Option (List Char)
  scheduleItems : List Busy
deriving DecidableEq, Repr

/-- checkMyCalendarAvailability of the create searcher: like the
reschedule variant but skipping events with a Declined subject instead of
the selected event. -/
def checkMyCalendarAvailability (currentTime slotEnd : Int) (myEvents : List MyEvent) : Bool :=
  myEvents.all (fun event =>
    if event.subject.startsWith ("Declined:") then true
    else if dayOf event.startT ≠ dayOf currentTime ∧ dayOf event.endT ≠ dayOf currentTime then
      true
    else
      (if event.isAllDay ∧ dayOf event.startT = dayOf currentTime then
        (event.showAs = "free" : Bool)
      else true) &&
      (if hasTimeConflict currentTime slotEnd event.startT event.endT then
        (event.showAs = "free" : Bool)
      else true))

/-- checkAttendeeAvailability of the create searcher: the availability
view code at the slot index must be the free digit when the index is in
range. -/
def checkAttendeeAvailability (currentTime : Int) (schedules : List CreateSchedule)
    (alignedNow : Int) : Bool :=
  schedules.all (fun schedule =>
    match schedule.availabilityView with
    | none => true
    | some view =>
      let minutesFromStart := currentTime - alignedNow
      let slotIndex := minutesFromStart.fdiv 30
      if 0 ≤ slotIndex ∧ slotIndex < (view.length : Int) then
        (view.getD slotIndex.toNat ' ' = '0' : Bool)
      else true)

/-- The per attendee busy window loop of the interactive create searcher:
an attendee blocks the slot when some busy window has distinct start and
end, lies on the day of the slot, and passes the three disjunct overlap
test.  Zero duration windows are skipped as data anomalies. -/
def createBusyBlocks (currentTime slotEnd : Int) (busyTimes : List Busy) : Bool :=
  busyTimes.any (fun busy =>
    if busy.bstart = busy.bend then false
    else if dayOf busy.bstart ≠ dayOf currentTime then false
    else
      (decide (currentTime ≥ busy.bstart) && decide (currentTime < busy.bend)) ||
      (decide (slotEnd > busy.bstart) && decide (slotEnd ≤ busy.bend)) ||
      (decide (currentTime ≤ busy.bstart) && decide (slotEnd ≥ busy.bend)))

/-- All attendees pass the busy window loop of the interactive create
searcher. -/
def createAttendeesFree (currentTime slotEnd : Int) (schedules : List CreateSchedule) : Bool :=
  schedules.all (fun schedule => !createBusyBlocks currentTime slotEnd schedule.scheduleItems)

/-- isSlotAvailable of the create searcher used by findDaySlots. -/
def createIsSlotAvailable (currentTime slotEnd : Int) (myEvents : List MyEvent)
    (schedules : List CreateSchedule) (alignedNow : Int) : Bool :=
  checkMyCalendarAvailability currentTime slotEnd myEvents &&
  checkAttendeeAvailability currentTime schedules alignedNow

/-- Slot stepping loop of findDaySlots in the create command: no original
start to skip. -/
def createSlotLoop (duration searchEndTime : Int) (myEvents : List MyEvent)
    (schedules : List CreateSchedule) (alignedNow : Int) :
    Nat → Int → List (Int × Int)
  | 0, _ => []
  | fuel + 1, currentTime =>
    if currentTime < searchEndTime ∧ currentTime + duration ≤ searchEndTime then
      let slotEnd := currentTime + duration
      if createIsSlotAvailable currentTime slotEnd myEvents schedules alignedNow then
        (currentTime, slotEnd) ::
          createSlotLoop duration searchEndTime myEvents schedules alignedNow fuel
            (currentTime + 30)
      else
        createSlotLoop duration searchEndTime myEvents schedules alignedNow fuel
          (currentTime + 30)
    else []

/-- findDaySlots of the create command, with the same first day clamp to
now plus thirty minutes. -/
def findDaySlots (dayNine now duration : Int) (myEvents : List MyEvent)
    (schedules : List CreateSchedule) (alignedNow : Int) (dayIndex : Nat) :
    List (Int × Int) :=
  let searchEndTime := dayNine + 600
  let searchStartTime :=
    if dayIndex = 0 then
      let minStartTime := now + 30
      if minStartTime > dayNine then minStartTime else dayNine
    else dayNine
  createSlotLoop duration searchEndTime myEvents schedules alignedNow
    ((searchEndTime - searchStartTime).toNat + 1) searchStartTime

end Slots

namespace Memory

/-- User action kinds of a decision record. -/
inductive UserActionType
  | approve
  | modify
  | skip
deriving DecidableEq, Repr

/-- Proposed action kinds of a decision record. -/
inductive ProposedActionType
  | reschedule
  | decline
  | keep
deriving DecidableEq, Repr

/-- Pattern features of a decision record. -/
structure PatternsInfo where
  priorityDiff : Int
  attendeesCount : Nat
  isRecurring : Bool
  timeOfDay : String
  dayOfWeek : Nat
deriving DecidableEq, Repr

/-- Proposed action of a decision record. -/
structure ProposedAction where
  type : ProposedActionType
  targetPriority : Int
  priorityDiff : Int
deriving DecidableEq, Repr

/-- User action of a decision record. -/
structure UserAction where
  type : UserActionType
  finalAction : Option ProposedActionType
  modified : Bool
deriving DecidableEq, Repr

/-- Optional feedback attached to a decision record. -/
structure Feedback where
  wasSuccessful : Bool
  userComment : Option String
deriving DecidableEq, Repr

/-- A decision record of the memory log. -/
structure Decision where
  id : String
  timestamp : String
  conflictHash : String
  proposedAction : ProposedAction
  userAction : UserAction
  patterns : Option PatternsInfo
  feedback : Option Feedback
deriving DecidableEq, Repr

/-- One line of a log partition, as seen by the parser: whitespace only,
not valid JSON, or the JSON serialisation of a decision. -/
inductive Line
  | blank
  | malformed
  | valid (d : Decision)
deriving DecidableEq, Repr

/-- parseDecisionLine: an empty line and a line that fails to parse both
yield nothing, otherwise the decision. -/
def parseDecisionLine : Line → Option Decision
  | Line.blank => none
  | Line.malformed => none
  | Line.valid d => some d

/-- readDecisionsFromFile: parse each line in order, keep the
successes. -/
def readDecisionsFromFile : List Line → List Decision
  | [] => []
  | line :: rest =>
    match parseDecisionLine line with
    | some decision => decision :: readDecisionsFromFile rest
    | none => readDecisionsFromFile rest

/-- Name of a log partition: the date instant its date string parses to
(midnight of the day) and whether the name carries the jsonl suffix. -/
structure PartitionName where
  date : Int
  jsonl : Bool
deriving DecidableEq, Repr

/-- The decisions directory: association list from partition name to the
lines of the partition. -/
def Dir := List (PartitionName × List Line)

/-- appendFile: append the line to the named partition, creating the
partition at the end of the directory when absent. -/
def appendToFile : Dir → PartitionName → Line → Dir
  | [], name, l => [(name, [l])]
  | (n, c) :: rest, name, l =>
    if n = name then (n, c ++ [l]) :: rest else (n, c) :: appendToFile rest name l

/-- Content of a named partition of the directory, when present. -/
def findFile : Dir → PartitionName → Option (List Line)
  | [], _ => none
  | (n, c) :: rest, name => if n = name then some c else findFile rest name

/-- cleanupOldData: delete every jsonl partition whose date is before the
cutoff instant; other entries are untouched. -/
def cleanupOldData (dir : Dir) (cutoff : Int) : Dir :=
  dir.filter (fun f => !(f.1.jsonl && decide (f.1.date < cutoff)))

/-- Cutoff instant of the retention window: now minus retentionDays
days. -/
def retentionCutoff (now retentionDays : Int) : Int := now - retentionDays * 1440

/-- Midnight instant of the day of now: the instant the date string of
today parses back to. -/
def todayDate (now : Int) : Int := now.fdiv 1440 * 1440

/-- recordDecision: append the serialised decision to the partition of
today, then run the retention cleanup. -/
def recordDecision (dir : Dir) (now : Int) (l : Line) (retentionDays : Int) : Dir :=
  cleanupOldData (appendToFile dir { date := todayDate now, jsonl := true } l)
    (retentionCutoff now retentionDays)

/-- Partition filter of loadRecentDecisions: jsonl suffix and date not
before the cutoff. -/
def isLoadedFile (cutoff : Int) (f : PartitionName × List Line) : Bool :=
  f.1.jsonl && decide (cutoff ≤ f.1.date)

/-- loadRecentDecisions: a missing directory (ENOENT) yields no
decisions; otherwise read every jsonl partition within the window in
directory order. -/
def loadRecentDecisions (dirOpt : Option Dir) (cutoff : Int) : List Decision :=
  match dirOpt with
  | none => []
  | some files => (files.filter (isLoadedFile cutoff)).flatMap (fun f => readDecisionsFromFile f.2)

/-- Conditions of a mined pattern. -/
structure PatternConditions where
  minPriorityDiff : Option Int
  maxPriorityDiff : Option Int
  minAttendees : Option Nat
  timeOfDay : Option String
  isRecurring : Option Bool
deriving DecidableEq, Repr

/-- A mined pattern.  The random identifier and the update timestamp of
the source record are impure and carry no information consulted by any
caller; they are omitted from the embedding. -/
structure Pattern where
  description : String
  conditions : PatternConditions
  suggestedAction : String
  approvalRate : ℚ
  sampleCount : Nat
deriving DecidableEq, Repr

/-- A priority difference bucket of the pattern analysis. -/
structure PriorityRange where
  rmin : Int
  rmax : Int
  label : String
deriving DecidableEq, Repr

/-- The three priority difference buckets of analyzePriorityPatterns. -/
def priorityRanges : List PriorityRange :=
  [ { rmin := 50, rmax := 100, label := "大きな優先度差（50以上）" }
  , { rmin := 25, rmax := 50, label := "中程度の優先度差（25-50）" }
  , { rmin := 0, rmax := 25, label := "小さな優先度差（25未満）" } ]

/-- String name of a proposed action type, as serialised in the log. -/
def actionKey : ProposedActionType → String
  | ProposedActionType.reschedule => "reschedule"
  | ProposedActionType.decline => "decline"
  | ProposedActionType.keep => "keep"

/-- Insertion ordered counter map, modelling the plain object used by
findMostCommonAction: first occurrence appends a key, later occurrences
bump its count. -/
def bumpCount : List (String × Nat) → String → List (String × Nat)
  | [], a => [(a, 1)]
  | (k, c) :: rest, a =>
    if k = a then (k, c + 1) :: rest else (k, c) :: bumpCount rest a

/-- findMostCommonAction: count the proposed action types of the approved
decisions and return the key of the first entry holding the maximal
count, matching the head of the stable descending sort of the source;
nothing without approvals. -/
def findMostCommonAction (approvedDecisions : List Decision) : Option String :=
  let actionCounts := approvedDecisions.foldl
    (fun acc d => bumpCount acc (actionKey d.proposedAction.type)) []
  match actionCounts with
  | [] => none
  | e :: rest => some ((rest.foldl (fun best x => if best.2 < x.2 then x else best) e).1)

/-- Whether a decision carries pattern features inside a priority
difference bucket. -/
def inPriorityRange (range : PriorityRange) (d : Decision) : Bool :=
  match d.patterns with
  | some p => decide (range.rmin ≤ p.priorityDiff) && decide (p.priorityDiff < range.rmax)
  | none => false

/-- Whether the user approved a decision. -/
def isApproval (d : Decision) : Bool := d.userAction.type = UserActionType.approve

/-- createPriorityPattern: nothing below three relevant decisions or
without approvals, otherwise the bucket pattern with the exact approval
ratio. -/
def createPriorityPattern (decisions : List Decision) (range : PriorityRange) :
    Option Pattern :=
  let relevantDecisions := decisions.filter (inPriorityRange range)
  if relevantDecisions.length < 3 then none
  else
    let approvals := relevantDecisions.filter isApproval
    let approvalRate : ℚ := mkRat approvals.length relevantDecisions.length
    match findMostCommonAction approvals with
    | none => none
    | some mca =>
      some
        { description := range.label
          conditions :=
            { minPriorityDiff := some range.rmin, maxPriorityDiff := some range.rmax
              minAttendees := none, timeOfDay := none, isRecurring := none }
          suggestedAction := mca
          approvalRate := approvalRate
          sampleCount := relevantDecisions.length }

/-- analyzePriorityPatterns: the bucket patterns that exist, in bucket
order. -/
def analyzePriorityPatterns (decisions : List Decision) : List Pattern :=
  priorityRanges.filterMap (createPriorityPattern decisions)

/-- The three time of day groups of analyzeTimeOfDayPatterns. -/
def timeOfDayGroups : List String := ["morning", "afternoon", "evening"]

/-- createTimeOfDayPattern: nothing below three relevant decisions or
with approval ratio at or below seven tenths, otherwise the group
pattern. -/
def createTimeOfDayPattern (decisions : List Decision) (timeOfDay : String) :
    Option Pattern :=
  let relevantDecisions := decisions.filter
    (fun d =>
      match d.patterns with
      | some p => p.timeOfDay = timeOfDay
      | none => false)
  if relevantDecisions.length < 3 then none
  else
    let approvals := relevantDecisions.filter isApproval
    let approvalRate : ℚ := mkRat approvals.length relevantDecisions.length
    if approvalRate ≤ mkRat 7 10 then none
    else
      some
        { description := timeOfDay ++ "の会議"
          conditions :=
            { minPriorityDiff := none, maxPriorityDiff := none
              minAttendees := none, timeOfDay := some timeOfDay, isRecurring := none }
          suggestedAction := "context_dependent"
          approvalRate := approvalRate
          sampleCount := relevantDecisions.length }

/-- analyzeTimeOfDayPatterns. -/
def analyzeTimeOfDayPatterns (decisions : List Decision) : List Pattern :=
  timeOfDayGroups.filterMap (createTimeOfDayPattern decisions)

/-- analyzePatterns: priority patterns then time of day patterns. -/
def analyzePatterns (decisions : List Decision) : List Pattern :=
  analyzePriorityPatterns decisions ++ analyzeTimeOfDayPatterns decisions

/-- suggestPattern over the already loaded ninety day decision window:
nothing below five decisions, otherwise the analysed patterns with
approval ratio above seven tenths and at least five samples.  The
thresholds are the hard coded constants of the source. -/
def suggestPattern (decisions : List Decision) : List Pattern :=
  if decisions.length < 5 then []
  else
    (analyzePatterns decisions).filter
      (fun p => decide (mkRat 7 10 < p.approvalRate) && decide (5 ≤ p.sampleCount))

/-- Structural floor of the base two logarithm, with explicit fuel so
that it evaluates in the kernel. -/
def log2Fuel : Nat → Nat → Nat
  | 0, _ => 0
  | fuel + 1, n => if 2 ≤ n then log2Fuel fuel (n / 2) + 1 else 0

/-- Floor of the base two logarithm of a positive natural number. -/
def natLog2 (n : Nat) : Nat := log2Fuel n n

/-- The binade exponent of the positive ratio n over d: the unique E with
two to the E at most n over d, strictly below two to the E plus one. -/
def binadeExp (n d : Nat) : Int :=
  let e0 : Int := (natLog2 n : Int) - (natLog2 d : Int)
  if (if 0 ≤ e0 then d * 2 ^ e0.toNat ≤ n else d ≤ n * 2 ^ (-e0).toNat) then e0 else e0 - 1

/-- Round the ratio N over D to the nearest integer, ties to even. -/
def roundScaled (N D : Nat) : Nat :=
  let m := N / D
  let r := N % D
  if 2 * r < D then m
  else if D < 2 * r then m + 1
  else if m % 2 = 0 then m else m + 1

/-- The IEEE 754 binary64 value nearest to a positive rational, ties to
even: a 53 bit significand at the binade of the input, with the reduced
precision of the subnormal range below the smallest normal binade.  The
decision ratios the code divides are at most one, so the overflow range
is not reachable here. -/
def fl64Pos (q : ℚ) : ℚ :=
  let n := q.num.toNat
  let d := q.den
  let E := binadeExp n d
  let s : Int := if -1022 ≤ E then 52 - E else 1074
  let m := if 0 ≤ s then roundScaled (n * 2 ^ s.toNat) d else roundScaled n (d * 2 ^ (-s).toNat)
  if 0 ≤ s then mkRat m (2 ^ s.toNat) else ((m : ℚ) * (2 ^ (-s).toNat : ℚ))

/-- The binary64 double produced by the floating point division of the
source, as an exact rational: zero for zero, and the correctly rounded
value on either sign. -/
def fl64 (q : ℚ) : ℚ :=
  if q = 0 then 0
  else if q < 0 then -fl64Pos (-q) else fl64Pos q

/-- Statistics returned by getStatistics. -/
structure Statistics where
  totalDecisions : Nat
  approvalRate : ℚ
  modificationRate : ℚ
  skipRate : ℚ
  topPatterns : List Pattern
deriving DecidableEq, Repr

/-- getStatistics over the thirty day window, with the pattern mining run
over its own ninety day window: the explicit zero record without
decisions, otherwise the exact ratios of the three user action kinds and
the first three suggested patterns. -/
def getStatistics (dirOpt : Option Dir) (cutoff30 cutoff90 : Int) : Statistics :=
  let decisions := loadRecentDecisions dirOpt cutoff30
  if decisions.length = 0 then
    { totalDecisions := 0, approvalRate := 0, modificationRate := 0, skipRate := 0
      topPatterns := [] }
  else
    let approvals := (decisions.filter (fun d => d.userAction.type = UserActionType.approve)).length
    let modifications :=
      (decisions.filter (fun d => d.userAction.type = UserActionType.modify)).length
    let skips := (decisions.filter (fun d => d.userAction.type = UserActionType.skip)).length
    let patterns := suggestPattern (loadRecentDecisions dirOpt cutoff90)
    { totalDecisions := decisions.length
      approvalRate := fl64 (mkRat approvals decisions.length)
      modificationRate := fl64 (mkRat modifications decisions.length)
      skipRate := fl64 (mkRat skips decisions.length)
      topPatterns := patterns.take 3 }

/-- A concrete decision record: an approved reschedule with priority
difference sixty in the morning, used as sample data. -/
def sampleDecision : Decision :=
  { id := "i", timestamp := "t", conflictHash := "h"
    proposedAction :=
      { type := ProposedActionType.reschedule, targetPriority := 30, priorityDiff := 60 }
    userAction := { type := UserActionType.approve, finalAction := none, modified := false }
    patterns := some
      { priorityDiff := 60, attendeesCount := 5, isRecurring := false,
        timeOfDay := "morning", dayOfWeek := 1 }
    feedback := none }

/-- The priority bucket pattern mined from five copies of the sample
decision. -/
def samplePattern : Pattern :=
  { description := "大きな優先度差（50以上）"
    conditions :=
      { minPriorityDiff := some 50, maxPriorityDiff := some 100
        minAttendees := none, timeOfDay := none, isRecurring := none }
    suggestedAction := "reschedule"
    approvalRate := 1
    sampleCount := 5 }

/-- The sample decision with a modify user action instead. -/
def sampleDecisionModify : Decision :=
  { sampleDecision with
    userAction := { type := UserActionType.modify, finalAction := none, modified := true } }

/-- The sample decision with a skip user action instead. -/
def sampleDecisionSkip : Decision :=
  { sampleDecision with
    userAction := { type := UserActionType.skip, finalAction := none, modified := false } }

end Memory

namespace Conflicts

theorem parentD_of_ge (p : List Nat) (x : Nat) (h : p.length ≤ x) : parentD p x = x := by
  simp [parentD, List.getD_eq_getElem?_getD, List.getElem?_eq_none h]

theorem parentD_lt_of_ne {p : List Nat} {x : Nat} (h : parentD p x ≠ x) : x < p.length := by
  by_contra hx
  exact h (parentD_of_ge p x (Nat.le_of_not_lt hx))

theorem parentD_set (l : List Nat) (j v i : Nat) :
    parentD (l.set j v) i = if j = i ∧ j < l.length then v else parentD l i := by
  simp only [parentD, List.getD_eq_getElem?_getD, List.getElem?_set]
  by_cases hji : j = i
  · subst hji
    by_cases hl : j < l.length
    · simp [hl]
    · simp [hl, List.getElem?_eq_none (Nat.le_of_not_lt hl)]
  · simp [hji]

theorem le_foldr_max {l : List Nat} {x : Nat} (h : x ∈ l) : x ≤ l.foldr max 0 := by
  induction l with
  | nil => cases h
  | cons a t ih =>
    rcases List.mem_cons.1 h with rfl | h
    · simp only [List.foldr_cons]
      exact Nat.le_max_left _ _
    · simp only [List.foldr_cons]
      exact Nat.le_trans (ih h) (Nat.le_max_right _ _)

theorem rankD_lt_rankMax (uf : UnionFind) (i : Nat) : rankD uf.rank i < uf.rankMax := by
  rcases h : uf.rank[i]? with _ | v
  · simp only [rankD, List.getD_eq_getElem?_getD, h, Option.getD_none, UnionFind.rankMax]
    omega
  · have hv : v ∈ uf.rank := by
      have := List.getElem?_eq_some.1 h
      rcases this with ⟨hlt, hget⟩
      exact hget ▸ List.getElem_mem hlt
    simp only [rankD, List.getD_eq_getElem?_getD, h, Option.getD_some, UnionFind.rankMax]
    have := le_foldr_max hv
    omega

theorem rootAux_of_root {p : List Nat} {x : Nat} (fuel : Nat) (hroot : parentD p x = x) :
    rootAux fuel p x = x := by
  cases fuel <;> simp [rootAux, hroot]

theorem rootAux_stable {p r : List Nat} {B : Nat}
    (hrlt : ∀ i, parentD p i ≠ i → rankD r i < rankD r (parentD p i))
    (hB : ∀ i, rankD r i < B) :
    ∀ fuel fuel' x, B - rankD r x ≤ fuel → fuel ≤ fuel' →
      rootAux fuel' p x = rootAux fuel p x := by
  intro fuel
  induction fuel with
  | zero =>
    intro fuel' x hgap _
    exact absurd (hB x) (by omega)
  | succ fuel ih =>
    intro fuel' x hgap hle
    obtain ⟨fuel'', rfl⟩ : ∃ k, fuel' = k + 1 := ⟨fuel' - 1, by omega⟩
    by_cases hy : parentD p x = x
    · simp [rootAux, hy]
    · simp only [rootAux, hy, if_neg, ite_false]
      have hrank := hrlt x hy
      have hgap' : B - rankD r (parentD p x) ≤ fuel := by
        have := hB x
        omega
      exact ih fuel'' (parentD p x) hgap' (by omega)

theorem rootAux_isRoot {p r : List Nat} {B : Nat}
    (hrlt : ∀ i, parentD p i ≠ i → rankD r i < rankD r (parentD p i))
    (hB : ∀ i, rankD r i < B) :
    ∀ fuel x, B - rankD r x ≤ fuel → parentD p (rootAux fuel p x) = rootAux fuel p x := by
  intro fuel
  induction fuel with
  | zero =>
    intro x hgap
    exact absurd (hB x) (by omega)
  | succ fuel ih =>
    intro x hgap
    by_cases hy : parentD p x = x
    · simp [rootAux, hy]
    · simp only [rootAux, hy, ite_false]
      have hrank := hrlt x hy
      exact ih (parentD p x) (by have := hB x; omega)

theorem rootAux_step {p r : List Nat} {B : Nat}
    (hrlt : ∀ i, parentD p i ≠ i → rankD r i < rankD r (parentD p i))
    (hB : ∀ i, rankD r i < B) (x : Nat) (h : parentD p x ≠ x) :
    rootAux B p x = rootAux B p (parentD p x) := by
  obtain ⟨B', rfl⟩ : ∃ k, B = k + 1 := ⟨B - 1, by have := hB x; omega⟩
  have hstep : rootAux (B' + 1) p x = rootAux B' p (parentD p x) := by
    simp [rootAux, h]
  rw [hstep]
  exact (rootAux_stable hrlt hB B' (B' + 1) (parentD p x)
    (by have := hrlt x h; have := hB x; omega) (by omega)).symm

theorem rootAux_idem {p r : List Nat} {B : Nat}
    (hrlt : ∀ i, parentD p i ≠ i → rankD r i < rankD r (parentD p i))
    (hB : ∀ i, rankD r i < B) (x : Nat) :
    rootAux B p (rootAux B p x) = rootAux B p x :=
  rootAux_of_root B (rootAux_isRoot hrlt hB B x (by omega))

theorem rootAux_lt {p r : List Nat} {B : Nat}
    (hplt : ∀ i, i < p.length → parentD p i < p.length)
    (hrlt : ∀ i, parentD p i ≠ i → rankD r i < rankD r (parentD p i))
    (hB : ∀ i, rankD r i < B) :
    ∀ fuel x, B - rankD r x ≤ fuel → x < p.length → rootAux fuel p x < p.length := by
  intro fuel
  induction fuel with
  | zero =>
    intro x hgap _
    exact absurd (hB x) (by omega)
  | succ fuel ih =>
    intro x hgap hx
    by_cases hy : parentD p x = x
    · simpa [rootAux, hy] using hx
    · simp only [rootAux, hy, ite_false]
      have hrank := hrlt x hy
      exact ih (parentD p x) (by have := hB x; omega) (hplt x hx)

theorem findAux_snd : ∀ (fuel : Nat) (p : List Nat) (x : Nat),
    (findAux fuel p x).2 = rootAux fuel p x := by
  intro fuel
  induction fuel with
  | zero => intro p x; rfl
  | succ fuel ih =>
    intro p x
    by_cases hy : parentD p x = x
    · simp [findAux, rootAux, hy]
    · simp [findAux, rootAux, hy, ih]

theorem findAux_length : ∀ (fuel : Nat) (p : List Nat) (x : Nat),
    (findAux fuel p x).1.length = p.length := by
  intro fuel
  induction fuel with
  | zero => intro p x; rfl
  | succ fuel ih =>
    intro p x
    by_cases hy : parentD p x = x
    · simp [findAux, hy]
    · simp [findAux, hy, List.length_set, ih]

theorem rootAux_eq_of_le {p r : List Nat} {B : Nat}
    (hrlt : ∀ i, parentD p i ≠ i → rankD r i < rankD r (parentD p i))
    (hB : ∀ i, rankD r i < B) (fuel x : Nat) (hgap : B - rankD r x ≤ fuel) :
    rootAux fuel p x = rootAux B p x := by
  have h1 := rootAux_stable hrlt hB (B - rankD r x) fuel x (Nat.le_refl _) hgap
  have h2 := rootAux_stable hrlt hB (B - rankD r x) B x (Nat.le_refl _) (by omega)
  rw [h1, h2]

theorem findAux_of_root (fuel : Nat) (p : List Nat) (x : Nat) (h : parentD p x = x) :
    findAux fuel p x = (p, x) := by
  cases fuel <;> simp [findAux, h]

theorem parentD_findAux_or {p r : List Nat} {B : Nat}
    (hrlt : ∀ i, parentD p i ≠ i → rankD r i < rankD r (parentD p i))
    (hB : ∀ i, rankD r i < B) :
    ∀ fuel x i, B - rankD r x ≤ fuel →
      parentD (findAux fuel p x).1 i = parentD p i ∨
        (rootAux B p i = rootAux B p x ∧ parentD (findAux fuel p x).1 i = rootAux B p x) := by
  intro fuel
  induction fuel with
  | zero =>
    intro x i hgap
    exact absurd (hB x) (by omega)
  | succ fuel ih =>
    intro x i hgap
    by_cases hy : parentD p x = x
    · left
      simp [findAux, hy]
    · have hx : x < p.length := parentD_lt_of_ne hy
      have hgapy : B - rankD r (parentD p x) ≤ fuel := by
        have := hrlt x hy
        have := hB x
        omega
      have hroot2 : (findAux fuel p (parentD p x)).2 = rootAux B p x := by
        rw [findAux_snd, rootAux_eq_of_le hrlt hB fuel (parentD p x) hgapy,
          ← rootAux_step hrlt hB x hy]
      have hunfold : (findAux (fuel + 1) p x).1 =
          (findAux fuel p (parentD p x)).1.set x (findAux fuel p (parentD p x)).2 := by
        simp [findAux, hy]
      rw [hunfold, parentD_set, findAux_length]
      by_cases hix : x = i
      · subst hix
        right
        simp [hx, hroot2]
      · simp only [hix, false_and, if_false, ite_false]
        rcases ih (parentD p x) i hgapy with hL | ⟨h1, h2⟩
        · exact Or.inl hL
        · right
          rw [← rootAux_step hrlt hB x hy] at h1 h2
          exact ⟨h1, h2⟩

theorem parentD_findAux_lt {p r : List Nat} {B : Nat}
    (hplt : ∀ i, i < p.length → parentD p i < p.length)
    (hrlt : ∀ i, parentD p i ≠ i → rankD r i < rankD r (parentD p i))
    (hB : ∀ i, rankD r i < B) :
    ∀ fuel x i, B - rankD r x ≤ fuel → i < p.length →
      parentD (findAux fuel p x).1 i < p.length := by
  intro fuel x i hgap hi
  by_cases hx : x < p.length
  · rcases parentD_findAux_or hrlt hB fuel x i hgap with hL | ⟨_, hR⟩
    · rw [hL]
      exact hplt i hi
    · rw [hR]
      exact rootAux_lt hplt hrlt hB B x (by omega) hx
  · rw [findAux_of_root fuel p x (parentD_of_ge p x (Nat.le_of_not_lt hx))]
    exact hplt i hi

theorem rankD_le_rank_rootAux {p r : List Nat} {B : Nat}
    (hrlt : ∀ i, parentD p i ≠ i → rankD r i < rankD r (parentD p i))
    (hB : ∀ i, rankD r i < B) :
    ∀ fuel x, B - rankD r x ≤ fuel → rankD r x ≤ rankD r (rootAux fuel p x) := by
  intro fuel
  induction fuel with
  | zero =>
    intro x hgap
    exact absurd (hB x) (by omega)
  | succ fuel ih =>
    intro x hgap
    by_cases hy : parentD p x = x
    · simp [rootAux, hy]
    · simp only [rootAux, hy, ite_false]
      have hrank := hrlt x hy
      exact Nat.le_trans (Nat.le_of_lt hrank)
        (ih (parentD p x) (by have := hB x; omega))

theorem lt_rank_rootAux {p r : List Nat} {B : Nat}
    (hrlt : ∀ i, parentD p i ≠ i → rankD r i < rankD r (parentD p i))
    (hB : ∀ i, rankD r i < B) (x : Nat) (h : rootAux B p x ≠ x) :
    rankD r x < rankD r (rootAux B p x) := by
  by_cases hy : parentD p x = x
  · exact absurd (rootAux_of_root B hy) h
  · rw [rootAux_step hrlt hB x hy]
    have h1 := hrlt x hy
    have h2 := rankD_le_rank_rootAux hrlt hB B (parentD p x) (by omega)
    omega

theorem rank_lt_findAux {p r : List Nat} {B : Nat}
    (hrlt : ∀ i, parentD p i ≠ i → rankD r i < rankD r (parentD p i))
    (hB : ∀ i, rankD r i < B) :
    ∀ fuel x i, B - rankD r x ≤ fuel → parentD (findAux fuel p x).1 i ≠ i →
      rankD r i < rankD r (parentD (findAux fuel p x).1 i) := by
  intro fuel x i hgap hne
  rcases parentD_findAux_or hrlt hB fuel x i hgap with hL | ⟨h1, h2⟩
  · rw [hL] at hne ⊢
    exact hrlt i hne
  · rw [h2] at hne ⊢
    rw [← h1] at hne ⊢
    exact lt_rank_rootAux hrlt hB i hne

theorem rootAux_compress {p q r : List Nat} {B : Nat} {x : Nat}
    (hrlt : ∀ j, parentD p j ≠ j → rankD r j < rankD r (parentD p j))
    (hB : ∀ j, rankD r j < B)
    (hqrlt : ∀ j, parentD q j ≠ j → rankD r j < rankD r (parentD q j))
    (hchar : ∀ j, parentD q j = parentD p j ∨
      (rootAux B p j = rootAux B p x ∧ parentD q j = rootAux B p x))
    (i : Nat) : rootAux B q i = rootAux B p i := by
  by_cases hqi : parentD q i = i
  · rw [rootAux_of_root B hqi]
    rcases hchar i with hL | ⟨h1, h2⟩
    · rw [hL] at hqi
      rw [rootAux_of_root B hqi]
    · rw [h2] at hqi
      rw [h1, hqi]
  · have hstep := rootAux_step hqrlt hB i hqi
    have hrec : rootAux B q (parentD q i) = rootAux B p (parentD q i) :=
      rootAux_compress hrlt hB hqrlt hchar (parentD q i)
    rw [hstep, hrec]
    rcases hchar i with hL | ⟨h1, h2⟩
    · rw [hL]
      rw [hL] at hqi
      exact (rootAux_step hrlt hB i hqi).symm
    · rw [h2, rootAux_idem hrlt hB x]
      exact h1.symm
termination_by B - rankD r i
decreasing_by
  have h1 := hqrlt i hqi
  have h2 := hB i
  omega

theorem parentD_range (n i : Nat) : parentD (List.range n) i = i := by
  by_cases h : i < n
  · simp [parentD, List.getD_eq_getElem?_getD, List.getElem?_range h]
  · exact parentD_of_ge _ _ (by simpa using Nat.le_of_not_lt h)

theorem UFInv_init (n : Nat) : UFInv (ufInit n) := by
  refine ⟨by simp [ufInit], ?_, ?_⟩
  · intro i hi
    simpa [ufInit, parentD_range] using by simpa [ufInit] using hi
  · intro i hi
    exact absurd (parentD_range n i) hi

theorem ufInit_length (n : Nat) : (ufInit n).parent.length = n := by
  simp [ufInit]

theorem rootD_init (n x : Nat) : (ufInit n).rootD x = x :=
  rootAux_of_root _ (parentD_range n x)

theorem find_fst_rank (uf : UnionFind) (x : Nat) : (uf.find x).1.rank = uf.rank := rfl

theorem find_fst_length (uf : UnionFind) (x : Nat) :
    (uf.find x).1.parent.length = uf.parent.length :=
  findAux_length _ _ _

theorem find_snd_eq (uf : UnionFind) (x : Nat) : (uf.find x).2 = uf.rootD x :=
  findAux_snd _ _ _

theorem UFInv_find {uf : UnionFind} (h : UFInv uf) (x : Nat) : UFInv (uf.find x).1 := by
  obtain ⟨hrlen, hplt, hrlt⟩ := h
  have hB : ∀ i, rankD uf.rank i < uf.rankMax := rankD_lt_rankMax uf
  refine ⟨?_, ?_, ?_⟩
  · show uf.rank.length = (findAux uf.rankMax uf.parent x).1.length
    rw [findAux_length]
    exact hrlen
  · intro i hi
    have hlen : (uf.find x).1.parent.length = uf.parent.length := find_fst_length uf x
    rw [hlen] at hi ⊢
    exact parentD_findAux_lt hplt hrlt hB uf.rankMax x i (by omega) hi
  · intro i hi
    exact rank_lt_findAux hrlt hB uf.rankMax x i (by omega) hi

theorem rootD_find {uf : UnionFind} (h : UFInv uf) (x i : Nat) :
    (uf.find x).1.rootD i = uf.rootD i := by
  obtain ⟨hrlen, hplt, hrlt⟩ := h
  have hB : ∀ j, rankD uf.rank j < uf.rankMax := rankD_lt_rankMax uf
  show rootAux uf.rankMax (findAux uf.rankMax uf.parent x).1 i = rootAux uf.rankMax uf.parent i
  exact rootAux_compress hrlt hB
    (fun j hj => rank_lt_findAux hrlt hB uf.rankMax x j (by omega) hj)
    (fun j => parentD_findAux_or hrlt hB uf.rankMax x j (by omega)) i

theorem rankD_set (l : List Nat) (j v i : Nat) :
    rankD (l.set j v) i = if j = i ∧ j < l.length then v else rankD l i := by
  simp only [rankD, List.getD_eq_getElem?_getD, List.getElem?_set]
  by_cases hji : j = i
  · subst hji
    by_cases hl : j < l.length
    · simp [hl]
    · simp [hl, List.getElem?_eq_none (Nat.le_of_not_lt hl)]
  · simp [hji]

theorem rootD_isRoot {uf : UnionFind} (h : UFInv uf) (x : Nat) :
    parentD uf.parent (uf.rootD x) = uf.rootD x :=
  rootAux_isRoot h.2.2 (rankD_lt_rankMax uf) uf.rankMax x (by omega)

theorem rootD_idem {uf : UnionFind} (h : UFInv uf) (x : Nat) :
    uf.rootD (uf.rootD x) = uf.rootD x :=
  rootAux_idem h.2.2 (rankD_lt_rankMax uf) x

theorem rootD_lt {uf : UnionFind} (h : UFInv uf) {x : Nat} (hx : x < uf.parent.length) :
    uf.rootD x < uf.parent.length :=
  rootAux_lt h.2.1 h.2.2 (rankD_lt_rankMax uf) uf.rankMax x (by omega) hx

theorem rootD_of_root {uf : UnionFind} {x : Nat} (h : parentD uf.parent x = x) :
    uf.rootD x = x :=
  rootAux_of_root _ h

theorem rootAux_set {p r r' : List Nat} {B B' : Nat} {c d : Nat}
    (hrlt : ∀ j, parentD p j ≠ j → rankD r j < rankD r (parentD p j))
    (hB : ∀ j, rankD r j < B)
    (hqrlt : ∀ j, parentD (p.set c d) j ≠ j →
      rankD r' j < rankD r' (parentD (p.set c d) j))
    (hB' : ∀ j, rankD r' j < B')
    (hc : c < p.length) (hcroot : parentD p c = c) (hdroot : parentD p d = d)
    (hcd : c ≠ d) (i : Nat) :
    rootAux B' (p.set c d) i = if rootAux B p i = c then d else rootAux B p i := by
  by_cases hi : parentD (p.set c d) i = i
  · rw [rootAux_of_root B' hi]
    by_cases hic : c = i
    · exfalso
      subst hic
      rw [parentD_set, if_pos ⟨rfl, hc⟩] at hi
      exact hcd hi.symm
    · rw [parentD_set] at hi
      simp only [hic, false_and, if_false, ite_false] at hi
      have hri : rootAux B p i = i := rootAux_of_root B hi
      rw [hri, if_neg (fun hcon => hic hcon.symm)]
  · have hstep : rootAux B' (p.set c d) i = rootAux B' (p.set c d) (parentD (p.set c d) i) :=
      rootAux_step hqrlt hB' i hi
    have hrec :
        rootAux B' (p.set c d) (parentD (p.set c d) i) =
          if rootAux B p (parentD (p.set c d) i) = c then d
          else rootAux B p (parentD (p.set c d) i) :=
      rootAux_set hrlt hB hqrlt hB' hc hcroot hdroot hcd (parentD (p.set c d) i)
    rw [hstep, hrec]
    by_cases hic : c = i
    · subst hic
      have hpc : parentD (p.set c d) c = d := by
        rw [parentD_set]
        simp [hc]
      rw [hpc, rootAux_of_root B hdroot, rootAux_of_root B hcroot]
      simp [Ne.symm hcd]
    · have hpi : parentD (p.set c d) i = parentD p i := by
        rw [parentD_set]
        simp [hic]
      rw [hpi]
      have hne : parentD p i ≠ i := by
        rw [← hpi]
        exact hi
      rw [← rootAux_step hrlt hB i hne]
termination_by B' - rankD r' i
decreasing_by
  have h1 := hqrlt i hi
  have h2 := hB' i
  omega

theorem UFInv_setParent_strict {uf : UnionFind} (h : UFInv uf) {a b : Nat}
    (hb : b < uf.parent.length)
    (hrank : rankD uf.rank a < rankD uf.rank b) :
    UFInv { parent := uf.parent.set a b, rank := uf.rank } := by
  obtain ⟨hrlen, hplt, hrlt⟩ := h
  refine ⟨by simp [hrlen], ?_, ?_⟩
  · intro i hi
    simp only [List.length_set] at hi ⊢
    rw [parentD_set]
    split
    · exact hb
    · exact hplt i hi
  · intro i hne
    rw [parentD_set] at hne ⊢
    by_cases hai : a = i ∧ a < uf.parent.length
    · rw [if_pos hai] at hne ⊢
      rw [← hai.1]
      exact hrank
    · rw [if_neg hai] at hne ⊢
      exact hrlt i hne

theorem UFInv_setBump {uf : UnionFind} (h : UFInv uf) {a b : Nat}
    (ha : a < uf.parent.length)
    (haroot : parentD uf.parent a = a)
    (hab : a ≠ b)
    (hrank : rankD uf.rank a = rankD uf.rank b) :
    UFInv { parent := uf.parent.set b a,
            rank := uf.rank.set a (rankD uf.rank a + 1) } := by
  obtain ⟨hrlen, hplt, hrlt⟩ := h
  have har : a < uf.rank.length := by omega
  refine ⟨by simp [hrlen], ?_, ?_⟩
  · intro i hi
    simp only [List.length_set] at hi ⊢
    rw [parentD_set]
    split
    · exact ha
    · exact hplt i hi
  · intro i hne
    rw [parentD_set] at hne ⊢
    rw [rankD_set, rankD_set]
    by_cases hbi : b = i ∧ b < uf.parent.length
    · rw [if_pos hbi] at hne ⊢
      rw [if_neg (fun hcon => hab (hcon.1.trans hbi.1.symm)), if_pos ⟨rfl, har⟩]
      rw [← hbi.1]
      omega
    · rw [if_neg hbi] at hne ⊢
      have hold := hrlt i hne
      by_cases hai : a = i ∧ a < uf.rank.length
      · exfalso
        rw [← hai.1] at hne
        exact hne haroot
      · rw [if_neg hai]
        by_cases hap : a = parentD uf.parent i ∧ a < uf.rank.length
        · rw [if_pos hap]
          rw [← hap.1] at hold
          omega
        · rw [if_neg hap]
          exact hold

theorem rootD_setParent {uf2 : UnionFind} (h2 : UFInv uf2) {c d : Nat}
    (hc : c < uf2.parent.length) (hd : d < uf2.parent.length)
    (hcroot : parentD uf2.parent c = c) (hdroot : parentD uf2.parent d = d)
    (hcd : c ≠ d) (hrank : rankD uf2.rank c < rankD uf2.rank d) (i : Nat) :
    UnionFind.rootD { parent := uf2.parent.set c d, rank := uf2.rank } i =
      if uf2.rootD i = c then d else uf2.rootD i := by
  have hinv := UFInv_setParent_strict h2 hd hrank
  exact rootAux_set h2.2.2 (rankD_lt_rankMax uf2) hinv.2.2
    (rankD_lt_rankMax { parent := uf2.parent.set c d, rank := uf2.rank })
    hc hcroot hdroot hcd i

theorem rootD_setBump {uf2 : UnionFind} (h2 : UFInv uf2) {a b : Nat}
    (ha : a < uf2.parent.length) (hb : b < uf2.parent.length)
    (haroot : parentD uf2.parent a = a) (hbroot : parentD uf2.parent b = b)
    (hab : a ≠ b) (hrank : rankD uf2.rank a = rankD uf2.rank b) (i : Nat) :
    UnionFind.rootD
        { parent := uf2.parent.set b a, rank := uf2.rank.set a (rankD uf2.rank a + 1) } i =
      if uf2.rootD i = b then a else uf2.rootD i := by
  have hinv := UFInv_setBump h2 ha haroot hab hrank
  exact rootAux_set h2.2.2 (rankD_lt_rankMax uf2) hinv.2.2
    (rankD_lt_rankMax
      { parent := uf2.parent.set b a, rank := uf2.rank.set a (rankD uf2.rank a + 1) })
    hb hbroot haroot (Ne.symm hab) i

theorem union_spec {uf : UnionFind} (h : UFInv uf) (x y : Nat)
    (hx : x < uf.parent.length) (hy : y < uf.parent.length) :
    UFInv (uf.union x y) ∧
    (uf.union x y).parent.length = uf.parent.length ∧
    ∃ R, (R = uf.rootD x ∨ R = uf.rootD y) ∧
      ∀ i, (uf.union x y).rootD i =
        if uf.rootD i = uf.rootD x ∨ uf.rootD i = uf.rootD y then R
        else uf.rootD i := by
  have h1 : UFInv (uf.find x).1 := UFInv_find h x
  have h2 : UFInv ((uf.find x).1.find y).1 := UFInv_find h1 y
  have hrank2 : ((uf.find x).1.find y).1.rank = uf.rank := rfl
  have hlen2 : ((uf.find x).1.find y).1.parent.length = uf.parent.length := by
    rw [find_fst_length, find_fst_length]
  have hroot2 : ∀ i, ((uf.find x).1.find y).1.rootD i = uf.rootD i := fun i => by
    rw [rootD_find h1, rootD_find h]
  have hrX : (uf.find x).2 = uf.rootD x := find_snd_eq uf x
  have hrY : ((uf.find x).1.find y).2 = uf.rootD y := by
    rw [find_snd_eq, rootD_find h]
  have hXroot : parentD ((uf.find x).1.find y).1.parent (uf.rootD x) = uf.rootD x := by
    have e : ((uf.find x).1.find y).1.rootD (uf.rootD x) = uf.rootD x := by
      rw [hroot2, rootD_idem h]
    have hr := rootD_isRoot h2 (uf.rootD x)
    rw [e] at hr
    exact hr
  have hYroot : parentD ((uf.find x).1.find y).1.parent (uf.rootD y) = uf.rootD y := by
    have e : ((uf.find x).1.find y).1.rootD (uf.rootD y) = uf.rootD y := by
      rw [hroot2, rootD_idem h]
    have hr := rootD_isRoot h2 (uf.rootD y)
    rw [e] at hr
    exact hr
  have hXlt : uf.rootD x < ((uf.find x).1.find y).1.parent.length := by
    rw [hlen2]
    exact rootD_lt h hx
  have hYlt : uf.rootD y < ((uf.find x).1.find y).1.parent.length := by
    rw [hlen2]
    exact rootD_lt h hy
  have hun : uf.union x y =
      (if uf.rootD x = uf.rootD y then ((uf.find x).1.find y).1
       else if rankD ((uf.find x).1.find y).1.rank (uf.rootD x) <
           rankD ((uf.find x).1.find y).1.rank (uf.rootD y) then
         { parent := ((uf.find x).1.find y).1.parent.set (uf.rootD x) (uf.rootD y),
           rank := ((uf.find x).1.find y).1.rank }
       else if rankD ((uf.find x).1.find y).1.rank (uf.rootD y) <
           rankD ((uf.find x).1.find y).1.rank (uf.rootD x) then
         { parent := ((uf.find x).1.find y).1.parent.set (uf.rootD y) (uf.rootD x),
           rank := ((uf.find x).1.find y).1.rank }
       else
         { parent := ((uf.find x).1.find y).1.parent.set (uf.rootD y) (uf.rootD x),
           rank := ((uf.find x).1.find y).1.rank.set (uf.rootD x)
             (rankD ((uf.find x).1.find y).1.rank (uf.rootD x) + 1) }) := by
    simp only [UnionFind.union, hrX, hrY]
  by_cases hxy : uf.rootD x = uf.rootD y
  · rw [hun, if_pos hxy]
    refine ⟨h2, hlen2, uf.rootD x, Or.inl rfl, fun i => ?_⟩
    rw [hroot2 i]
    by_cases hc : uf.rootD i = uf.rootD x ∨ uf.rootD i = uf.rootD y
    · rw [if_pos hc]
      rcases hc with hc | hc
      · exact hc
      · exact hc.trans hxy.symm
    · rw [if_neg hc]
  · by_cases hlt : rankD ((uf.find x).1.find y).1.rank (uf.rootD x) <
        rankD ((uf.find x).1.find y).1.rank (uf.rootD y)
    · rw [hun, if_neg hxy, if_pos hlt]
      refine ⟨UFInv_setParent_strict h2 hYlt hlt, ?_, uf.rootD y, Or.inr rfl, fun i => ?_⟩
      · show (((uf.find x).1.find y).1.parent.set (uf.rootD x) (uf.rootD y)).length = _
        rw [List.length_set, hlen2]
      · have hchar := rootD_setParent h2 hXlt hYlt hXroot hYroot hxy hlt i
        rw [hroot2 i] at hchar
        rw [hchar]
        by_cases hc : uf.rootD i = uf.rootD x
        · rw [if_pos hc, if_pos (Or.inl hc)]
        · rw [if_neg hc]
          by_cases hc2 : uf.rootD i = uf.rootD y
          · rw [if_pos (Or.inr hc2), hc2]
          · rw [if_neg (fun hcon => hcon.elim hc hc2)]
    · by_cases hgt : rankD ((uf.find x).1.find y).1.rank (uf.rootD y) <
          rankD ((uf.find x).1.find y).1.rank (uf.rootD x)
      · rw [hun, if_neg hxy, if_neg hlt, if_pos hgt]
        refine ⟨UFInv_setParent_strict h2 hXlt hgt, ?_, uf.rootD x, Or.inl rfl, fun i => ?_⟩
        · show (((uf.find x).1.find y).1.parent.set (uf.rootD y) (uf.rootD x)).length = _
          rw [List.length_set, hlen2]
        · have hchar := rootD_setParent h2 hYlt hXlt hYroot hXroot (Ne.symm hxy) hgt i
          rw [hroot2 i] at hchar
          rw [hchar]
          by_cases hc : uf.rootD i = uf.rootD y
          · rw [if_pos hc, if_pos (Or.inr hc)]
          · rw [if_neg hc]
            by_cases hc2 : uf.rootD i = uf.rootD x
            · rw [if_pos (Or.inl hc2), hc2]
            · rw [if_neg (fun hcon => hcon.elim hc2 hc)]
      · have heq : rankD ((uf.find x).1.find y).1.rank (uf.rootD x) =
            rankD ((uf.find x).1.find y).1.rank (uf.rootD y) := by omega
        rw [hun, if_neg hxy, if_neg hlt, if_neg hgt]
        refine ⟨UFInv_setBump h2 hXlt hXroot hxy heq, ?_, uf.rootD x, Or.inl rfl, fun i => ?_⟩
        · show (((uf.find x).1.find y).1.parent.set (uf.rootD y) (uf.rootD x)).length = _
          rw [List.length_set, hlen2]
        · have hchar := rootD_setBump h2 hXlt hYlt hXroot hYroot hxy heq i
          rw [hroot2 i] at hchar
          rw [hchar]
          by_cases hc : uf.rootD i = uf.rootD y
          · rw [if_pos hc, if_pos (Or.inr hc)]
          · rw [if_neg hc]
            by_cases hc2 : uf.rootD i = uf.rootD x
            · rw [if_pos (Or.inl hc2), hc2]
            · rw [if_neg (fun hcon => hcon.elim hc2 hc)]

theorem equiv_union {uf : UnionFind} (h : UFInv uf) (x y : Nat)
    (hx : x < uf.parent.length) (hy : y < uf.parent.length) (a b : Nat) :
    (uf.union x y).Equiv a b ↔
      (uf.Equiv a b ∨ (uf.Equiv a x ∧ uf.Equiv y b) ∨ (uf.Equiv a y ∧ uf.Equiv x b)) := by
  obtain ⟨-, -, R, hR, hchar⟩ := union_spec h x y hx hy
  have hgoal : (uf.union x y).Equiv a b ↔
      ((if uf.rootD a = uf.rootD x ∨ uf.rootD a = uf.rootD y then R else uf.rootD a) =
        (if uf.rootD b = uf.rootD x ∨ uf.rootD b = uf.rootD y then R else uf.rootD b)) := by
    unfold UnionFind.Equiv
    rw [hchar a, hchar b]
  rw [hgoal]
  unfold UnionFind.Equiv
  by_cases ha : uf.rootD a = uf.rootD x ∨ uf.rootD a = uf.rootD y
  · rw [if_pos ha]
    by_cases hb : uf.rootD b = uf.rootD x ∨ uf.rootD b = uf.rootD y
    · rw [if_pos hb]
      apply iff_of_true rfl
      rcases ha with ha | ha <;> rcases hb with hb | hb
      · exact Or.inl (ha.trans hb.symm)
      · exact Or.inr (Or.inl ⟨ha, hb.symm⟩)
      · exact Or.inr (Or.inr ⟨ha, hb.symm⟩)
      · exact Or.inl (ha.trans hb.symm)
    · rw [if_neg hb]
      apply iff_of_false
      · intro hcon
        rcases hR with rfl | rfl
        · exact hb (Or.inl hcon.symm)
        · exact hb (Or.inr hcon.symm)
      · intro hcon
        rcases hcon with hcon | ⟨h1, h2⟩ | ⟨h1, h2⟩
        · rcases ha with ha | ha
          · exact hb (Or.inl (hcon.symm.trans ha))
          · exact hb (Or.inr (hcon.symm.trans ha))
        · exact hb (Or.inr h2.symm)
        · exact hb (Or.inl h2.symm)
  · rw [if_neg ha]
    by_cases hb : uf.rootD b = uf.rootD x ∨ uf.rootD b = uf.rootD y
    · rw [if_pos hb]
      apply iff_of_false
      · intro hcon
        rcases hR with rfl | rfl
        · exact ha (Or.inl hcon)
        · exact ha (Or.inr hcon)
      · intro hcon
        rcases hcon with hcon | ⟨h1, h2⟩ | ⟨h1, h2⟩
        · rcases hb with hb | hb
          · exact ha (Or.inl (hcon.trans hb))
          · exact ha (Or.inr (hcon.trans hb))
        · exact ha (Or.inl h1)
        · exact ha (Or.inr h1)
    · rw [if_neg hb]
      constructor
      · exact Or.inl
      · intro hcon
        rcases hcon with hcon | ⟨h1, h2⟩ | ⟨h1, h2⟩
        · exact hcon
        · exact absurd h1 (fun hcc => ha (Or.inl hcc))
        · exact absurd h1 (fun hcc => ha (Or.inr hcc))

theorem eqvGen_mono {α : Type} {R S : α → α → Prop}
    (h : ∀ u v, R u v → Relation.EqvGen S u v) :
    ∀ a b, Relation.EqvGen R a b → Relation.EqvGen S a b := by
  intro a b hab
  induction hab with
  | rel u v huv => exact h u v huv
  | refl u => exact Relation.EqvGen.refl u
  | symm u v _ ih => exact Relation.EqvGen.symm u v ih
  | trans u v w _ _ ih1 ih2 => exact Relation.EqvGen.trans u v w ih1 ih2

theorem foldl_union_spec (cond : Nat × Nat → Bool) :
    ∀ (ps : List (Nat × Nat)) (uf : UnionFind), UFInv uf →
      (∀ pr ∈ ps, pr.1 < uf.parent.length ∧ pr.2 < uf.parent.length) →
      UFInv (ps.foldl (fun acc pr => if cond pr then acc.union pr.1 pr.2 else acc) uf) ∧
      (ps.foldl (fun acc pr => if cond pr then acc.union pr.1 pr.2 else acc) uf).parent.length =
        uf.parent.length ∧
      (∀ a b,
        (ps.foldl (fun acc pr => if cond pr then acc.union pr.1 pr.2 else acc) uf).Equiv a b ↔
          Relation.EqvGen
            (fun u v => uf.Equiv u v ∨ ((u, v) ∈ ps ∧ cond (u, v) = true)) a b) := by
  intro ps
  induction ps with
  | nil =>
    intro uf h _
    refine ⟨h, rfl, fun a b => ?_⟩
    constructor
    · intro hab
      exact Relation.EqvGen.rel a b (Or.inl hab)
    · intro hab
      induction hab with
      | rel u v huv =>
        rcases huv with huv | ⟨hmem, _⟩
        · exact huv
        · exact absurd hmem (List.not_mem_nil _)
      | refl u => exact rfl
      | symm u v _ ih => exact ih.symm
      | trans u v w _ _ ih1 ih2 => exact ih1.trans ih2
  | cons pr ps ih =>
    intro uf h hb
    simp only [List.foldl_cons]
    by_cases hc : cond pr = true
    · rw [if_pos hc]
      have hpr := hb pr (List.mem_cons_self pr ps)
      have hstep := union_spec h pr.1 pr.2 hpr.1 hpr.2
      obtain ⟨ihinv, ihlen, ihequiv⟩ := ih (uf.union pr.1 pr.2) hstep.1
        (fun q hq => by
          rw [hstep.2.1]
          exact hb q (List.mem_cons_of_mem pr hq))
      refine ⟨ihinv, by rw [ihlen, hstep.2.1], fun a b => ?_⟩
      rw [ihequiv a b]
      constructor
      · apply eqvGen_mono
        intro u v huv
        rcases huv with huv | ⟨hmem, hcv⟩
        · rw [equiv_union h pr.1 pr.2 hpr.1 hpr.2 u v] at huv
          rcases huv with huv | ⟨h1, h2⟩ | ⟨h1, h2⟩
          · exact Relation.EqvGen.rel u v (Or.inl huv)
          · refine Relation.EqvGen.trans u pr.1 v (Relation.EqvGen.rel _ _ (Or.inl h1)) ?_
            refine Relation.EqvGen.trans pr.1 pr.2 v ?_ (Relation.EqvGen.rel _ _ (Or.inl h2))
            exact Relation.EqvGen.rel _ _ (Or.inr ⟨List.mem_cons_self pr ps, hc⟩)
          · refine Relation.EqvGen.trans u pr.2 v (Relation.EqvGen.rel _ _ (Or.inl h1)) ?_
            refine Relation.EqvGen.trans pr.2 pr.1 v ?_ (Relation.EqvGen.rel _ _ (Or.inl h2))
            exact Relation.EqvGen.symm _ _
              (Relation.EqvGen.rel _ _ (Or.inr ⟨List.mem_cons_self pr ps, hc⟩))
        · exact Relation.EqvGen.rel u v (Or.inr ⟨List.mem_cons_of_mem pr hmem, hcv⟩)
      · apply eqvGen_mono
        intro u v huv
        rcases huv with huv | ⟨hmem, hcv⟩
        · exact Relation.EqvGen.rel u v
            (Or.inl ((equiv_union h pr.1 pr.2 hpr.1 hpr.2 u v).2 (Or.inl huv)))
        · rcases List.mem_cons.1 hmem with heq | hmem'
          · subst heq
            exact Relation.EqvGen.rel u v
              (Or.inl ((equiv_union h u v hpr.1 hpr.2 u v).2
                (Or.inr (Or.inl ⟨rfl, rfl⟩))))
          · exact Relation.EqvGen.rel u v (Or.inr ⟨hmem', hcv⟩)
    · rw [if_neg hc]
      obtain ⟨ihinv, ihlen, ihequiv⟩ := ih uf h (fun q hq => hb q (List.mem_cons_of_mem pr hq))
      refine ⟨ihinv, ihlen, fun a b => ?_⟩
      rw [ihequiv a b]
      constructor
      · apply eqvGen_mono
        intro u v huv
        rcases huv with huv | ⟨hmem, hcv⟩
        · exact Relation.EqvGen.rel u v (Or.inl huv)
        · exact Relation.EqvGen.rel u v (Or.inr ⟨List.mem_cons_of_mem pr hmem, hcv⟩)
      · apply eqvGen_mono
        intro u v huv
        rcases huv with huv | ⟨hmem, hcv⟩
        · exact Relation.EqvGen.rel u v (Or.inl huv)
        · rcases List.mem_cons.1 hmem with heq | hmem'
          · exact absurd (heq ▸ hcv) hc
          · exact Relation.EqvGen.rel u v (Or.inr ⟨hmem', hcv⟩)

theorem mem_pairsUpTo {n a b : Nat} : (a, b) ∈ pairsUpTo n ↔ a < b ∧ b < n := by
  simp only [pairsUpTo, List.mem_flatMap, List.mem_map, List.mem_range, List.mem_range',
    Prod.mk.injEq]
  constructor
  · rintro ⟨i, hi, j, ⟨k, hk, hjk⟩, hia, hjb⟩
    omega
  · rintro ⟨hab, hbn⟩
    exact ⟨a, by omega, b, ⟨b - (a + 1), by omega, by omega⟩, rfl, rfl⟩

theorem buildUF_spec (se : List CalendarEvent) :
    UFInv (buildUF se) ∧ (buildUF se).parent.length = se.length ∧
    ∀ a b, (buildUF se).Equiv a b ↔ overlapChain se a b := by
  have hfold := foldl_union_spec
    (fun pr => eventsOverlap (se.getD pr.1 default) (se.getD pr.2 default))
    (pairsUpTo se.length) (ufInit se.length) (UFInv_init _)
    (fun pr hpr => by
      rcases pr with ⟨u, v⟩
      have hm := mem_pairsUpTo.1 hpr
      rw [ufInit_length]
      exact ⟨by omega, by omega⟩)
  obtain ⟨hinv, hlen, hequiv⟩ := hfold
  refine ⟨hinv, hlen.trans (ufInit_length _), fun a b => ?_⟩
  refine Iff.trans (hequiv a b) ?_
  constructor
  · apply eqvGen_mono
    intro u v huv
    rcases huv with huv | ⟨hmem, hcv⟩
    · have huveq : u = v := by
        have : (ufInit se.length).rootD u = (ufInit se.length).rootD v := huv
        rwa [rootD_init, rootD_init] at this
      subst huveq
      exact Relation.EqvGen.refl u
    · have hm := mem_pairsUpTo.1 hmem
      exact Relation.EqvGen.rel u v ⟨hm.1, hm.2, hcv⟩
  · apply eqvGen_mono
    intro u v huv
    obtain ⟨h1, h2, h3⟩ := huv
    exact Relation.EqvGen.rel u v (Or.inr ⟨mem_pairsUpTo.2 ⟨h1, h2⟩, h3⟩)

theorem getGroups_fold_eq (uf0 : UnionFind) :
    ∀ (xs : List Nat) (w : UnionFind) (bs : List (Nat × List Nat)),
      UFInv w → (∀ i, w.rootD i = uf0.rootD i) →
      (xs.foldl (fun s i => ((s.1.find i).1, addToBuckets s.2 (s.1.find i).2 i)) (w, bs)).2 =
        xs.foldl (fun acc i => addToBuckets acc (uf0.rootD i) i) bs := by
  intro xs
  induction xs with
  | nil =>
    intro w bs _ _
    rfl
  | cons x xs ih =>
    intro w bs hw hroot
    simp only [List.foldl_cons]
    have hfr : (w.find x).2 = uf0.rootD x := by
      rw [find_snd_eq, hroot]
    rw [hfr]
    exact ih (w.find x).1 _ (UFInv_find hw x) (fun i => by rw [rootD_find hw, hroot])

theorem addToBuckets_keys (bs : List (Nat × List Nat)) (root i : Nat) :
    (addToBuckets bs root i).map Prod.fst =
      if root ∈ bs.map Prod.fst then bs.map Prod.fst
      else bs.map Prod.fst ++ [root] := by
  induction bs with
  | nil => simp [addToBuckets]
  | cons hd rest ih =>
    rcases hd with ⟨r, g⟩
    by_cases hr : r = root
    · subst hr
      simp [addToBuckets]
    · simp only [addToBuckets, hr, ite_false, List.map_cons, ih]
      by_cases hmem : root ∈ rest.map Prod.fst
      · simp [hmem, Ne.symm hr]
      · simp [hmem, Ne.symm hr]


theorem addToBuckets_filter (f : Nat → Nat) (xs : List Nat) (i : Nat) :
    ∀ bs : List (Nat × List Nat),
      (∀ pr ∈ bs, pr.2 = xs.filter (fun k => f k = pr.1)) →
      (bs.map Prod.fst).Nodup →
      (f i ∉ bs.map Prod.fst → xs.filter (fun k => f k = f i) = []) →
      ∀ pr ∈ addToBuckets bs (f i) i,
        pr.2 = (xs ++ [i]).filter (fun k => f k = pr.1) := by
  intro bs
  induction bs with
  | nil =>
    intro _ _ hkey pr hpr
    simp only [addToBuckets, List.mem_singleton] at hpr
    subst hpr
    simp only [List.filter_append, hkey (by simp), List.nil_append]
    simp
  | cons hd rest ih =>
    intro H1 H2 hkey pr hpr
    rcases hd with ⟨r, g⟩
    rcases pr with ⟨pr1, pr2⟩
    by_cases hreq : r = f i
    · subst hreq
      simp only [addToBuckets, ite_true] at hpr
      rcases List.mem_cons.1 hpr with hpr | hpr
      · rw [Prod.mk.injEq] at hpr
        obtain ⟨rfl, rfl⟩ := hpr
        have hg : g = xs.filter (fun k => f k = f i) :=
          H1 (f i, g) (List.mem_cons_self _ _)
        show g ++ [i] = (xs ++ [i]).filter (fun k => f k = f i)
        rw [List.filter_append, ← hg]
        simp
      · have hg := H1 (pr1, pr2) (List.mem_cons_of_mem _ hpr)
        have hpr1m : pr1 ∈ rest.map Prod.fst := List.mem_map_of_mem Prod.fst hpr
        have hne : ¬(f i = pr1) := by
          intro hcon
          rw [List.map_cons] at H2
          exact (List.nodup_cons.1 H2).1 (by rw [hcon]; exact hpr1m)
        show pr2 = (xs ++ [i]).filter (fun k => f k = pr1)
        simp only at hg
        rw [hg, List.filter_append]
        simp [hne]
    · simp only [addToBuckets, hreq, ite_false] at hpr
      rcases List.mem_cons.1 hpr with hpr | hpr
      · rw [Prod.mk.injEq] at hpr
        obtain ⟨h1, h2⟩ := hpr
        have hg : pr2 = xs.filter (fun k => f k = pr1) := by
          have := H1 (r, g) (List.mem_cons_self _ _)
          rw [h1, h2]
          exact this
        have hne : ¬(f i = pr1) := by
          intro hcon
          apply hreq
          rw [← h1]
          exact hcon.symm
        show pr2 = (xs ++ [i]).filter (fun k => f k = pr1)
        rw [hg, List.filter_append]
        simp [hne]
      · exact ih (fun q hq => H1 q (List.mem_cons_of_mem _ hq))
          (by rw [List.map_cons] at H2; exact (List.nodup_cons.1 H2).2)
          (fun hmem => hkey (by
            rw [List.map_cons, List.mem_cons]
            rintro (hcon | hcon)
            · exact hreq hcon.symm
            · exact hmem hcon))
          (pr1, pr2) hpr

theorem addToBuckets_nodup (bs : List (Nat × List Nat)) (root i : Nat)
    (H2 : (bs.map Prod.fst).Nodup) :
    ((addToBuckets bs root i).map Prod.fst).Nodup := by
  rw [addToBuckets_keys]
  by_cases hmem : root ∈ bs.map Prod.fst
  · rw [if_pos hmem]
    exact H2
  · rw [if_neg hmem]
    rw [List.nodup_append]
    exact ⟨H2, List.nodup_singleton root,
      fun a ha hb => hmem ((List.mem_singleton.1 hb) ▸ ha)⟩

theorem addToBuckets_keys_iff (f : Nat → Nat) (xs : List Nat) (i : Nat)
    (bs : List (Nat × List Nat))
    (H3 : ∀ rt, rt ∈ bs.map Prod.fst ↔ ∃ k ∈ xs, f k = rt) :
    ∀ rt, rt ∈ (addToBuckets bs (f i) i).map Prod.fst ↔ ∃ k ∈ xs ++ [i], f k = rt := by
  intro rt
  rw [addToBuckets_keys]
  by_cases hmem : f i ∈ bs.map Prod.fst
  · rw [if_pos hmem, H3]
    constructor
    · rintro ⟨k, hk, hfk⟩
      exact ⟨k, List.mem_append_left _ hk, hfk⟩
    · rintro ⟨k, hk, hfk⟩
      rcases List.mem_append.1 hk with hk | hk
      · exact ⟨k, hk, hfk⟩
      · rw [List.mem_singleton.1 hk] at hfk
        exact (H3 rt).1 (hfk ▸ hmem)
  · rw [if_neg hmem]
    constructor
    · intro hin
      rcases List.mem_append.1 hin with hin | hin
      · obtain ⟨k, hk, hfk⟩ := (H3 rt).1 hin
        exact ⟨k, List.mem_append_left _ hk, hfk⟩
      · exact ⟨i, List.mem_append_right _ (List.mem_singleton.2 rfl),
          (List.mem_singleton.1 hin).symm⟩
    · rintro ⟨k, hk, hfk⟩
      rcases List.mem_append.1 hk with hk | hk
      · exact List.mem_append_left _ ((H3 rt).2 ⟨k, hk, hfk⟩)
      · rw [List.mem_singleton.1 hk] at hfk
        exact List.mem_append_right _ (List.mem_singleton.2 hfk.symm)

theorem buckets_spec (f : Nat → Nat) (xs : List Nat) :
    (∀ pr ∈ bucketsFor f xs, pr.2 = xs.filter (fun k => f k = pr.1)) ∧
    ((bucketsFor f xs).map Prod.fst).Nodup ∧
    (∀ rt, rt ∈ (bucketsFor f xs).map Prod.fst ↔ ∃ k ∈ xs, f k = rt) := by
  induction xs using List.reverseRecOn with
  | nil =>
    refine ⟨by simp [bucketsFor], by simp [bucketsFor], by simp [bucketsFor]⟩
  | append_singleton xs i ih =>
    obtain ⟨H1, H2, H3⟩ := ih
    have hstep : bucketsFor f (xs ++ [i]) = addToBuckets (bucketsFor f xs) (f i) i := by
      unfold bucketsFor
      rw [List.foldl_append]
      rfl
    rw [hstep]
    refine ⟨?_, addToBuckets_nodup _ _ _ H2, addToBuckets_keys_iff f xs i _ H3⟩
    exact addToBuckets_filter f xs i _ H1 H2
      (fun hmem => by
        rw [List.filter_eq_nil_iff]
        intro k hk hfk
        exact hmem ((H3 (f i)).2 ⟨k, hk, by simpa using hfk⟩))

theorem getGroups_eq {uf : UnionFind} (h : UFInv uf) :
    uf.getGroups =
      ((bucketsFor uf.rootD (List.range uf.parent.length)).map Prod.snd).filter
        (fun group => 1 < group.length) := by
  show ((((List.range uf.parent.length).foldl
      (fun s i => ((s.1.find i).1, addToBuckets s.2 (s.1.find i).2 i))
      (uf, ([] : List (Nat × List Nat)))).2.map Prod.snd).filter
        (fun group => 1 < group.length)) = _
  rw [getGroups_fold_eq uf (List.range uf.parent.length) uf [] h (fun _ => rfl)]
  rfl

theorem mem_getGroups {uf : UnionFind} (h : UFInv uf) :
    ∀ g ∈ uf.getGroups, 1 < g.length ∧
      ∃ rt, g = (List.range uf.parent.length).filter (fun k => uf.rootD k = rt) := by
  intro g hg
  rw [getGroups_eq h] at hg
  obtain ⟨hmem, hlen⟩ := List.mem_filter.1 hg
  refine ⟨by simpa using hlen, ?_⟩
  obtain ⟨pr, hpr, hsnd⟩ := List.mem_map.1 hmem
  exact ⟨pr.1, hsnd ▸ ((buckets_spec uf.rootD (List.range uf.parent.length)).1 pr hpr)⟩

theorem getGroups_pairwise {uf : UnionFind} (h : UFInv uf) :
    uf.getGroups.Pairwise (fun g1 g2 => ∀ i, i ∈ g1 → i ∉ g2) := by
  rw [getGroups_eq h]
  apply List.Pairwise.filter
  rw [List.pairwise_map]
  have H := buckets_spec uf.rootD (List.range uf.parent.length)
  have hkeys : (bucketsFor uf.rootD (List.range uf.parent.length)).Pairwise
      (fun e1 e2 => e1.1 ≠ e2.1) := List.pairwise_map.1 H.2.1
  refine hkeys.imp_of_mem ?_
  intro e1 e2 h1 h2 hne i hi1 hi2
  have hf1 := H.1 e1 h1
  have hf2 := H.1 e2 h2
  rw [hf1] at hi1
  rw [hf2] at hi2
  have hr1 := of_decide_eq_true (List.mem_filter.1 hi1).2
  have hr2 := of_decide_eq_true (List.mem_filter.1 hi2).2
  exact hne (hr1 ▸ hr2 ▸ rfl)

theorem exists_other_of_nodup {l : List Nat} (hnd : l.Nodup) (hlen : 1 < l.length)
    {a : Nat} (ha : a ∈ l) : ∃ b ∈ l, b ≠ a := by
  match l, hnd, hlen with
  | a1 :: a2 :: rest, hnd, _ =>
    by_cases hcase : a = a1
    · refine ⟨a2, List.mem_cons_of_mem _ (List.mem_cons_self _ _), ?_⟩
      intro hcon
      rw [hcon, hcase] at hnd
      exact (List.nodup_cons.1 hnd).1 (List.mem_cons_self _ _)
    · exact ⟨a1, List.mem_cons_self _ _, fun hcon => hcase hcon.symm⟩

theorem chain_nbr {se : List CalendarEvent} {i j : Nat} (hc : overlapChain se i j) :
    i = j ∨
      ((∃ k, k ≠ i ∧
          ((i < k ∧ k < se.length ∧
              eventsOverlap (se.getD i default) (se.getD k default) = true) ∨
            (k < i ∧ i < se.length ∧
              eventsOverlap (se.getD k default) (se.getD i default) = true))) ∧
        (∃ k, k ≠ j ∧
          ((j < k ∧ k < se.length ∧
              eventsOverlap (se.getD j default) (se.getD k default) = true) ∨
            (k < j ∧ j < se.length ∧
              eventsOverlap (se.getD k default) (se.getD j default) = true)))) := by
  induction hc with
  | rel u v huv =>
    right
    obtain ⟨h1, h2, h3⟩ := huv
    exact ⟨⟨v, by omega, Or.inl ⟨h1, h2, h3⟩⟩, ⟨u, by omega, Or.inr ⟨h1, h2, h3⟩⟩⟩
  | refl u => exact Or.inl rfl
  | symm u v _ ih =>
    rcases ih with ih | ⟨ih1, ih2⟩
    · exact Or.inl ih.symm
    · exact Or.inr ⟨ih2, ih1⟩
  | trans u v w _ _ ih1 ih2 =>
    rcases ih1 with ih1 | ⟨ihu, ihv⟩
    · rw [ih1]
      exact ih2
    · rcases ih2 with ih2 | ⟨ihv2, ihw⟩
      · rw [← ih2]
        exact Or.inr ⟨ihu, ihv⟩
      · exact Or.inr ⟨ihu, ihw⟩

theorem eventsOverlap_eq_overlapsNaive (a b : CalendarEvent) :
    eventsOverlap a b = overlapsNaive a.startT a.endT b.startT b.endT := rfl

theorem naiveGroup_events (se : List CalendarEvent) (i : Nat) :
    (mkConflict (naiveGroup se i)).events = naiveGroup se i := rfl

theorem naiveFold_props (se : List CalendarEvent) :
    ∀ (idxs : List Nat) (acc : List EventConflict),
      (∀ c ∈ acc, ∃ i, i < se.length ∧ c.events = naiveGroup se i ∧
        1 < (naiveGroup se i).length) →
      acc.Pairwise (fun c1 c2 => ∀ e1 ∈ c1.events, ∀ e2 ∈ c2.events, e1.id ≠ e2.id) →
      (∀ i ∈ idxs, i < se.length) →
      (∀ c ∈ idxs.foldl (naiveStep se) acc, ∃ i, i < se.length ∧ c.events = naiveGroup se i ∧
        1 < (naiveGroup se i).length) ∧
      (idxs.foldl (naiveStep se) acc).Pairwise
        (fun c1 c2 => ∀ e1 ∈ c1.events, ∀ e2 ∈ c2.events, e1.id ≠ e2.id) := by
  intro idxs
  induction idxs with
  | nil =>
    intro acc hshape hpw _
    exact ⟨hshape, hpw⟩
  | cons i idxs ih =>
    intro acc hshape hpw hbound
    simp only [List.foldl_cons]
    have hi : i < se.length := hbound i (List.mem_cons_self _ _)
    have hbound' : ∀ j ∈ idxs, j < se.length := fun j hj =>
      hbound j (List.mem_cons_of_mem _ hj)
    by_cases hlen : 1 < (naiveGroup se i).length
    · by_cases hshared : acc.any
          (fun c => c.events.any
            (fun e => (naiveGroup se i).any (fun ce => ce.id = e.id))) = true
      · have hstep : naiveStep se acc i = acc := by
          unfold naiveStep
          rw [if_pos hlen, if_pos hshared]
        rw [hstep]
        exact ih acc hshape hpw hbound'
      · have hstep : naiveStep se acc i = acc ++ [mkConflict (naiveGroup se i)] := by
          unfold naiveStep
          rw [if_pos hlen, if_neg hshared]
        rw [hstep]
        apply ih
        · intro c hc
          rcases List.mem_append.1 hc with hc | hc
          · exact hshape c hc
          · rw [List.mem_singleton.1 hc]
            exact ⟨i, hi, rfl, hlen⟩
        · rw [List.pairwise_append]
          refine ⟨hpw, List.pairwise_singleton _ _, ?_⟩
          intro c1 hc1 c2 hc2 e1 he1 e2 he2
          rw [List.mem_singleton.1 hc2] at he2
          intro hcon
          apply hshared
          rw [List.any_eq_true]
          refine ⟨c1, hc1, ?_⟩
          rw [List.any_eq_true]
          refine ⟨e1, he1, ?_⟩
          rw [List.any_eq_true]
          exact ⟨e2, he2, decide_eq_true hcon.symm⟩
        · exact hbound'
    · have hstep : naiveStep se acc i = acc := by
        unfold naiveStep
        rw [if_neg hlen]
      rw [hstep]
      exact ih acc hshape hpw hbound'

theorem getD_mem_of_lt {α : Type} {l : List α} {n : Nat} (h : n < l.length) (d : α) :
    l.getD n d ∈ l := by
  rw [List.getD_eq_getElem?_getD, List.getElem?_eq_getElem h]
  exact List.getElem_mem h

theorem naiveGroup_overlap (se : List CalendarEvent) (i : Nat)
    (hlen : 1 < (naiveGroup se i).length) :
    ∀ k, k < (naiveGroup se i).length →
      ∃ m, m < (naiveGroup se i).length ∧ m ≠ k ∧
        (eventsOverlap ((naiveGroup se i).getD k default)
            ((naiveGroup se i).getD m default) = true ∨
          eventsOverlap ((naiveGroup se i).getD m default)
            ((naiveGroup se i).getD k default) = true) := by
  have htail : ∀ e ∈ ((List.range' (i + 1) (se.length - (i + 1))).filter
      (fun j => overlapsNaive (se.getD i default).startT (se.getD i default).endT
        (se.getD j default).startT (se.getD j default).endT)).map
      (fun j => se.getD j default),
      eventsOverlap (se.getD i default) e = true := by
    intro e he
    obtain ⟨j, hj, rfl⟩ := List.mem_map.1 he
    rw [eventsOverlap_eq_overlapsNaive]
    exact (List.mem_filter.1 hj).2
  have hng : naiveGroup se i = (se.getD i default) ::
      ((List.range' (i + 1) (se.length - (i + 1))).filter
        (fun j => overlapsNaive (se.getD i default).startT (se.getD i default).endT
          (se.getD j default).startT (se.getD j default).endT)).map
      (fun j => se.getD j default) := rfl
  intro k hk
  match k, hk with
  | 0, _ =>
    refine ⟨1, hlen, by omega, Or.inl ?_⟩
    rw [hng]
    simp only [List.getD_cons_zero, List.getD_cons_succ]
    apply htail
    apply getD_mem_of_lt
    rw [hng] at hlen
    simpa using hlen
  | k + 1, hk =>
    refine ⟨0, by omega, by omega, Or.inr ?_⟩
    rw [hng]
    simp only [List.getD_cons_zero, List.getD_cons_succ]
    apply htail
    apply getD_mem_of_lt
    rw [hng] at hk
    simpa using hk

theorem conflictIndexGroups_spec (events : List CalendarEvent) :
    ((conflictIndexGroups (activeSorted events)).Pairwise
        (fun g1 g2 => ∀ i, i ∈ g1 → i ∉ g2)) ∧
    (∀ g ∈ conflictIndexGroups (activeSorted events), ∀ i ∈ g,
      ∃ j ∈ g, j ≠ i ∧
        (eventsOverlap ((activeSorted events).getD i default)
            ((activeSorted events).getD j default) = true ∨
          eventsOverlap ((activeSorted events).getD j default)
            ((activeSorted events).getD i default) = true)) ∧
    (∀ g1 ∈ conflictIndexGroups (activeSorted events),
      ∀ g2 ∈ conflictIndexGroups (activeSorted events), g1 ≠ g2 →
        ∀ i ∈ g1, ∀ j ∈ g2, ¬ overlapChain (activeSorted events) i j) := by
  obtain ⟨hinv, hlen, hequiv⟩ := buildUF_spec (activeSorted events)
  refine ⟨getGroups_pairwise hinv, ?_, ?_⟩
  · intro g hg i hig
    obtain ⟨h2len, rt, hgf⟩ := mem_getGroups hinv g hg
    have hnd : g.Nodup := by
      rw [hgf]
      exact (List.nodup_range _).filter _
    obtain ⟨j, hj, hji⟩ := exists_other_of_nodup hnd h2len hig
    have hri : (buildUF (activeSorted events)).rootD i = rt := by
      have := (List.mem_filter.1 (hgf ▸ hig)).2
      exact of_decide_eq_true this
    have hrj : (buildUF (activeSorted events)).rootD j = rt := by
      have := (List.mem_filter.1 (hgf ▸ hj)).2
      exact of_decide_eq_true this
    have hchain : overlapChain (activeSorted events) i j :=
      (hequiv i j).1 (hri.trans hrj.symm)
    rcases chain_nbr hchain with heq | ⟨⟨k, hki, hedge⟩, -⟩
    · exact absurd heq.symm hji
    · have hkchain : overlapChain (activeSorted events) i k := by
        rcases hedge with hedge | hedge
        · exact Relation.EqvGen.rel i k hedge
        · exact Relation.EqvGen.symm k i (Relation.EqvGen.rel k i hedge)
      have hkn : k < (buildUF (activeSorted events)).parent.length := by
        rw [hlen]
        rcases hedge with hedge | hedge
        · exact hedge.2.1
        · omega
      have hrk : (buildUF (activeSorted events)).rootD k = rt := by
        have := (hequiv i k).2 hkchain
        rw [← this, hri]
      have hkg : k ∈ g := by
        rw [hgf]
        exact List.mem_filter.2 ⟨List.mem_range.2 hkn, decide_eq_true hrk⟩
      refine ⟨k, hkg, hki, ?_⟩
      rcases hedge with hedge | hedge
      · exact Or.inl hedge.2.2
      · exact Or.inr hedge.2.2
  · intro g1 hg1 g2 hg2 hne i hi j hj hchain
    obtain ⟨-, rt1, hgf1⟩ := mem_getGroups hinv g1 hg1
    obtain ⟨-, rt2, hgf2⟩ := mem_getGroups hinv g2 hg2
    rw [hgf1] at hi
    rw [hgf2] at hj
    have hri : (buildUF (activeSorted events)).rootD i = rt1 :=
      of_decide_eq_true (List.mem_filter.1 hi).2
    have hrj : (buildUF (activeSorted events)).rootD j = rt2 :=
      of_decide_eq_true (List.mem_filter.1 hj).2
    have heq : rt1 = rt2 := by
      have := (hequiv i j).2 hchain
      rw [← hri, ← hrj]
      exact this
    apply hne
    rw [hgf1, hgf2, heq]

theorem detectConflictsNaive_spec (events : List CalendarEvent) :
    ((detectConflictsNaive events).Pairwise
        (fun c1 c2 => ∀ e1 ∈ c1.events, ∀ e2 ∈ c2.events, e1.id ≠ e2.id)) ∧
    (∀ c ∈ detectConflictsNaive events, ∀ k, k < c.events.length →
      ∃ m, m < c.events.length ∧ m ≠ k ∧
        (eventsOverlap (c.events.getD k default) (c.events.getD m default) = true ∨
          eventsOverlap (c.events.getD m default) (c.events.getD k default) = true)) := by
  have hfold := naiveFold_props (activeSorted events)
    (List.range (activeSorted events).length) []
    (by intro c hc; cases hc)
    List.Pairwise.nil
    (fun i hi => List.mem_range.1 hi)
  refine ⟨hfold.2, ?_⟩
  intro c hc k hk
  obtain ⟨i, hi, hev, hgl⟩ := hfold.1 c hc
  rw [hev] at hk ⊢
  exact naiveGroup_overlap (activeSorted events) i hgl k hk

end Conflicts

/-- Claim C1 (amended): for every input list of events, the union-find
revision of detectConflicts produces a partition of the filtered and
sorted event list: no index lies in two returned groups, every member of
a group time-overlaps at least one other member of the same group, and
members of two distinct groups are never connected by a chain of
pairwise overlaps.  The naive pairwise revision guarantees only the
first two properties: its returned conflicts are pairwise disjoint by
event identifier and every event of a recorded group overlaps another
member of that group; the chain separation property fails for it, as
the counterexample shows. -/
theorem claim_c1_conflict_groups_partition (events : List Conflicts.CalendarEvent) :
    ((Conflicts.conflictIndexGroups (Conflicts.activeSorted events)).Pairwise
        (fun g1 g2 => ∀ i, i ∈ g1 → i ∉ g2)) ∧
    (∀ g ∈ Conflicts.conflictIndexGroups (Conflicts.activeSorted events), ∀ i ∈ g,
      ∃ j ∈ g, j ≠ i ∧
        (Conflicts.eventsOverlap ((Conflicts.activeSorted events).getD i default)
            ((Conflicts.activeSorted events).getD j default) = true ∨
          Conflicts.eventsOverlap ((Conflicts.activeSorted events).getD j default)
            ((Conflicts.activeSorted events).getD i default) = true)) ∧
    (∀ g1 ∈ Conflicts.conflictIndexGroups (Conflicts.activeSorted events),
      ∀ g2 ∈ Conflicts.conflictIndexGroups (Conflicts.activeSorted events), g1 ≠ g2 →
        ∀ i ∈ g1, ∀ j ∈ g2, ¬ Conflicts.overlapChain (Conflicts.activeSorted events) i j) ∧
    ((Conflicts.detectConflictsNaive events).Pairwise
        (fun c1 c2 => ∀ e1 ∈ c1.events, ∀ e2 ∈ c2.events, e1.id ≠ e2.id)) ∧
    (∀ c ∈ Conflicts.detectConflictsNaive events, ∀ k, k < c.events.length →
      ∃ m, m < c.events.length ∧ m ≠ k ∧
        (Conflicts.eventsOverlap (c.events.getD k default)
            (c.events.getD m default) = true ∨
          Conflicts.eventsOverlap (c.events.getD m default)
            (c.events.getD k default) = true)) :=
  ⟨(Conflicts.conflictIndexGroups_spec events).1,
    (Conflicts.conflictIndexGroups_spec events).2.1,
    (Conflicts.conflictIndexGroups_spec events).2.2,
    (Conflicts.detectConflictsNaive_spec events).1,
    (Conflicts.detectConflictsNaive_spec events).2⟩

/-- Witness for claim C1: on two overlapping events the union-find
revision returns the single group of both indices, and the member at
index zero overlaps another member of its group. -/
theorem claim_c1_conflict_groups_partition_witness :
    ∃ j ∈ [0, 1], j ≠ 0 ∧
      (Conflicts.eventsOverlap
          ((Conflicts.activeSorted
              [Conflicts.chainEvA, Conflicts.chainEvB]).getD 0 default)
          ((Conflicts.activeSorted
              [Conflicts.chainEvA, Conflicts.chainEvB]).getD j default) = true ∨
        Conflicts.eventsOverlap
          ((Conflicts.activeSorted
              [Conflicts.chainEvA, Conflicts.chainEvB]).getD j default)
          ((Conflicts.activeSorted
              [Conflicts.chainEvA, Conflicts.chainEvB]).getD 0 default) = true) :=
  (claim_c1_conflict_groups_partition [Conflicts.chainEvA, Conflicts.chainEvB]).2.1
    [0, 1] (by decide) 0 (by decide)

/-- Counterexample for claim C1 as frozen: on the four chain events the
naive revision returns two distinct groups, the event b lies in the
first, the event c lies in the second, and b directly overlaps c, so two
events placed in different groups are connected by a chain of pairwise
overlaps, which the claim forbids for both revisions. -/
theorem claim_c1_naive_chain_counterexample :
    (Conflicts.detectConflictsNaive
        [Conflicts.chainEvA, Conflicts.chainEvB, Conflicts.chainEvC,
          Conflicts.chainEvD]).length = 2 ∧
    Conflicts.chainEvB ∈
      ((Conflicts.detectConflictsNaive
          [Conflicts.chainEvA, Conflicts.chainEvB, Conflicts.chainEvC,
            Conflicts.chainEvD]).getD 0
        { events := [], startTime := 0, endTime := 0 }).events ∧
    Conflicts.chainEvC ∈
      ((Conflicts.detectConflictsNaive
          [Conflicts.chainEvA, Conflicts.chainEvB, Conflicts.chainEvC,
            Conflicts.chainEvD]).getD 1
        { events := [], startTime := 0, endTime := 0 }).events ∧
    ((Conflicts.detectConflictsNaive
          [Conflicts.chainEvA, Conflicts.chainEvB, Conflicts.chainEvC,
            Conflicts.chainEvD]).getD 0
        { events := [], startTime := 0, endTime := 0 }).events ≠
      ((Conflicts.detectConflictsNaive
          [Conflicts.chainEvA, Conflicts.chainEvB, Conflicts.chainEvC,
            Conflicts.chainEvD]).getD 1
        { events := [], startTime := 0, endTime := 0 }).events ∧
    Conflicts.eventsOverlap Conflicts.chainEvB Conflicts.chainEvC = true ∧
    Conflicts.overlapChain
      (Conflicts.activeSorted
        [Conflicts.chainEvA, Conflicts.chainEvB, Conflicts.chainEvC,
          Conflicts.chainEvD]) 1 2 :=
  ⟨by decide, by decide, by decide, by decide, by decide,
    Relation.EqvGen.rel 1 2 (by decide)⟩

/-- Claim C2 (amended): for every two events with positive duration and
with the end of the first at or before the start of the second, the
pairwise overlap test used by both revisions of detectConflicts returns
false, so such a pair never places the two events in the same group on
account of each other.  The restriction to positive durations is forced
by the counterexample: on a zero duration second event starting exactly
at the end of the first, the test returns true. -/
theorem claim_c2_half_open_overlap (e1 e2 : Conflicts.CalendarEvent)
    (h1 : e1.startT < e1.endT) (h2 : e2.startT < e2.endT)
    (hle : e1.endT ≤ e2.startT) :
    Conflicts.eventsOverlap e1 e2 = false ∧
    Conflicts.overlapsNaive e1.startT e1.endT e2.startT e2.endT = false := by
  constructor
  · simp only [Conflicts.eventsOverlap, Bool.or_eq_false_iff, Bool.and_eq_false_iff,
      decide_eq_false_iff_not]
    omega
  · simp only [Conflicts.overlapsNaive, Bool.or_eq_false_iff, Bool.and_eq_false_iff,
      decide_eq_false_iff_not]
    omega

/-- Witness for claim C2: two touching one hour events are reported as
non overlapping by both revisions. -/
theorem claim_c2_half_open_overlap_witness :
    Conflicts.eventsOverlap (Conflicts.mkBusyEvent ("p") 0 60)
        (Conflicts.mkBusyEvent ("q") 60 120) = false ∧
    Conflicts.overlapsNaive (Conflicts.mkBusyEvent ("p") 0 60).startT
        (Conflicts.mkBusyEvent ("p") 0 60).endT
        (Conflicts.mkBusyEvent ("q") 60 120).startT
        (Conflicts.mkBusyEvent ("q") 60 120).endT = false :=
  claim_c2_half_open_overlap (Conflicts.mkBusyEvent ("p") 0 60)
    (Conflicts.mkBusyEvent ("q") 60 120) (by decide) (by decide) (by decide)

/-- Counterexample for claim C2 as frozen: a zero duration event whose
start and end both equal the end of the first event satisfies
E1.end less or equal E2.start, yet the overlap test of both revisions
returns true for the pair. -/
theorem claim_c2_degenerate_counterexample :
    (Conflicts.mkBusyEvent ("p") 0 5).endT ≤ (Conflicts.mkBusyEvent ("z") 5 5).startT ∧
    Conflicts.eventsOverlap (Conflicts.mkBusyEvent ("p") 0 5)
      (Conflicts.mkBusyEvent ("z") 5 5) = true ∧
    Conflicts.overlapsNaive 0 5 5 5 = true := by
  decide

namespace Rules

theorem checkPriorityLevel_none_iff (s : List Char) (n : Nat) (o : List Char)
    (config : PriorityConfig) :
    checkPriorityLevel s n o config = none ↔
      config.rules.any (fun rule => matchesRule s n o rule) = false := by
  unfold checkPriorityLevel
  rcases hf : config.rules.find? (fun rule => matchesRule s n o rule) with _ | r
  · simp only []
    have h1 := List.find?_eq_none.1 hf
    constructor
    · intro _
      rw [Bool.eq_false_iff]
      intro hany
      obtain ⟨x, hx, hpx⟩ := List.any_eq_true.1 hany
      exact h1 x hx hpx
    · intro _
      trivial
  · simp only []
    constructor
    · intro h
      cases h
    · intro hany
      have hpr := List.find?_some hf
      have hmem := List.mem_of_find?_eq_some hf
      rw [Bool.eq_false_iff] at hany
      exact absurd (List.any_eq_true.2 ⟨r, hmem, hpr⟩) hany

theorem checkPriorityLevel_score (s : List Char) (n : Nat) (o : List Char)
    (config : PriorityConfig) (res : PriorityResult)
    (h : checkPriorityLevel s n o config = some res) :
    res.score = config.score ∧ res.level = config.level := by
  unfold checkPriorityLevel at h
  rcases hf : config.rules.find? (fun rule => matchesRule s n o rule) with _ | r
  · rw [hf] at h
    cases h
  · rw [hf] at h
    cases h
    exact ⟨rfl, rfl⟩

end Rules

namespace Rules

theorem tierMatchesAny_false_iff (event : RuleEvent) (tier : Option (List PriorityRule))
    (score : Int) (level descr : String) :
    checkPriorityLevel event.subject event.attendeesCount event.organizer
        { rules := tier.getD [], score := score, level := level, description := descr } =
      none ↔
    tierMatchesAny event tier = false := by
  rw [checkPriorityLevel_none_iff]
  exact Iff.rfl

end Rules


/-- Claim C3: calculateEventPriority evaluates the tiers in the order
critical, high, medium, low; the first tier containing a rule matching
the event determines the result with score 100, 75, 50 or 25 and the
matching level name, so an event matching both a critical and a low rule
scores 100; and when no tier has a matching rule the result is exactly
score 50, level medium, reason Default priority. -/
theorem claim_c3_priority_tier_order (event : Rules.RuleEvent)
    (rules : Rules.SchedulingRules) :
    (Rules.tierMatchesAny event rules.priorities.critical = true →
      (Rules.calculateEventPriority event rules).score = 100 ∧
      (Rules.calculateEventPriority event rules).level = "critical") ∧
    (Rules.tierMatchesAny event rules.priorities.critical = false →
      Rules.tierMatchesAny event rules.priorities.high = true →
      (Rules.calculateEventPriority event rules).score = 75 ∧
      (Rules.calculateEventPriority event rules).level = "high") ∧
    (Rules.tierMatchesAny event rules.priorities.critical = false →
      Rules.tierMatchesAny event rules.priorities.high = false →
      Rules.tierMatchesAny event rules.priorities.medium = true →
      (Rules.calculateEventPriority event rules).score = 50 ∧
      (Rules.calculateEventPriority event rules).level = "medium") ∧
    (Rules.tierMatchesAny event rules.priorities.critical = false →
      Rules.tierMatchesAny event rules.priorities.high = false →
      Rules.tierMatchesAny event rules.priorities.medium = false →
      Rules.tierMatchesAny event rules.priorities.low = true →
      (Rules.calculateEventPriority event rules).score = 25 ∧
      (Rules.calculateEventPriority event rules).level = "low") ∧
    (Rules.tierMatchesAny event rules.priorities.critical = false →
      Rules.tierMatchesAny event rules.priorities.high = false →
      Rules.tierMatchesAny event rules.priorities.medium = false →
      Rules.tierMatchesAny event rules.priorities.low = false →
      Rules.calculateEventPriority event rules =
        { score := 50, level := "medium", reasons := ["Default priority"] }) := by
  have hcalc : Rules.calculateEventPriority event rules =
      match [({ rules := rules.priorities.critical.getD [], score := 100, level := "critical"
                description := "Critical priority match" } : Rules.PriorityConfig)
            , { rules := rules.priorities.high.getD [], score := 75, level := "high"
                description := "High priority match" }
            , { rules := rules.priorities.medium.getD [], score := 50, level := "medium"
                description := "Medium priority match" }
            , { rules := rules.priorities.low.getD [], score := 25, level := "low"
                description := "Low priority match" }].findSome?
          (fun config => Rules.checkPriorityLevel event.subject event.attendeesCount
            event.organizer config) with
      | some result => { score := result.score, level := result.level
                         reasons := [result.reason] }
      | none => { score := 50, level := "medium", reasons := ["Default priority"] } := rfl
  rcases h1 : Rules.checkPriorityLevel event.subject event.attendeesCount event.organizer
      { rules := rules.priorities.critical.getD [], score := 100, level := "critical"
        description := "Critical priority match" } with _ | r1
  case some =>
    have hr1 := Rules.checkPriorityLevel_score _ _ _ _ _ h1
    have hres : Rules.calculateEventPriority event rules =
        { score := r1.score, level := r1.level, reasons := [r1.reason] } := by
      rw [hcalc]
      simp [List.findSome?_cons, h1]
    have hnotnone : Rules.tierMatchesAny event rules.priorities.critical ≠ false := by
      intro hcon
      have hnone := (Rules.tierMatchesAny_false_iff event rules.priorities.critical
        100 "critical" "Critical priority match").2 hcon
      rw [h1] at hnone
      cases hnone
    refine ⟨fun _ => ?_, fun hc => absurd hc hnotnone, fun hc => absurd hc hnotnone,
      fun hc => absurd hc hnotnone, fun hc => absurd hc hnotnone⟩
    rw [hres]
    exact ⟨hr1.1, hr1.2⟩
  case none =>
    have hcrit : Rules.tierMatchesAny event rules.priorities.critical = false :=
      (Rules.tierMatchesAny_false_iff event rules.priorities.critical
        100 "critical" "Critical priority match").1 h1
    have hcritnt : Rules.tierMatchesAny event rules.priorities.critical ≠ true := by
      rw [hcrit]
      intro hcc
      cases hcc
    rcases h2 : Rules.checkPriorityLevel event.subject event.attendeesCount event.organizer
        { rules := rules.priorities.high.getD [], score := 75, level := "high"
          description := "High priority match" } with _ | r2
    case some =>
      have hr2 := Rules.checkPriorityLevel_score _ _ _ _ _ h2
      have hres : Rules.calculateEventPriority event rules =
          { score := r2.score, level := r2.level, reasons := [r2.reason] } := by
        rw [hcalc]
        simp [List.findSome?_cons, h1, h2]
      have hnotnone : Rules.tierMatchesAny event rules.priorities.high ≠ false := by
        intro hcon
        have hnone := (Rules.tierMatchesAny_false_iff event rules.priorities.high
          75 "high" "High priority match").2 hcon
        rw [h2] at hnone
        cases hnone
      refine ⟨fun hc => absurd hc hcritnt, fun _ _ => ?_,
        fun _ hc => absurd hc hnotnone, fun _ hc => absurd hc hnotnone,
        fun _ hc => absurd hc hnotnone⟩
      rw [hres]
      exact ⟨hr2.1, hr2.2⟩
    case none =>
      have hhigh : Rules.tierMatchesAny event rules.priorities.high = false :=
        (Rules.tierMatchesAny_false_iff event rules.priorities.high
          75 "high" "High priority match").1 h2
      have hhighnt : Rules.tierMatchesAny event rules.priorities.high ≠ true := by
        rw [hhigh]
        intro hcc
        cases hcc
      rcases h3 : Rules.checkPriorityLevel event.subject event.attendeesCount event.organizer
          { rules := rules.priorities.medium.getD [], score := 50, level := "medium"
            description := "Medium priority match" } with _ | r3
      case some =>
        have hr3 := Rules.checkPriorityLevel_score _ _ _ _ _ h3
        have hres : Rules.calculateEventPriority event rules =
            { score := r3.score, level := r3.level, reasons := [r3.reason] } := by
          rw [hcalc]
          simp [List.findSome?_cons, h1, h2, h3]
        have hnotnone : Rules.tierMatchesAny event rules.priorities.medium ≠ false := by
          intro hcon
          have hnone := (Rules.tierMatchesAny_false_iff event rules.priorities.medium
            50 "medium" "Medium priority match").2 hcon
          rw [h3] at hnone
          cases hnone
        refine ⟨fun hc => absurd hc hcritnt, fun _ hc => absurd hc hhighnt,
          fun _ _ _ => ?_, fun _ _ hc => absurd hc hnotnone,
          fun _ _ hc => absurd hc hnotnone⟩
        rw [hres]
        exact ⟨hr3.1, hr3.2⟩
      case none =>
        have hmed : Rules.tierMatchesAny event rules.priorities.medium = false :=
          (Rules.tierMatchesAny_false_iff event rules.priorities.medium
            50 "medium" "Medium priority match").1 h3
        have hmednt : Rules.tierMatchesAny event rules.priorities.medium ≠ true := by
          rw [hmed]
          intro hcc
          cases hcc
        rcases h4 : Rules.checkPriorityLevel event.subject event.attendeesCount
            event.organizer
            { rules := rules.priorities.low.getD [], score := 25, level := "low"
              description := "Low priority match" } with _ | r4
        case some =>
          have hr4 := Rules.checkPriorityLevel_score _ _ _ _ _ h4
          have hres : Rules.calculateEventPriority event rules =
              { score := r4.score, level := r4.level, reasons := [r4.reason] } := by
            rw [hcalc]
            simp [List.findSome?_cons, h1, h2, h3, h4]
          have hnotnone : Rules.tierMatchesAny event rules.priorities.low ≠ false := by
            intro hcon
            have hnone := (Rules.tierMatchesAny_false_iff event rules.priorities.low
              25 "low" "Low priority match").2 hcon
            rw [h4] at hnone
            cases hnone
          refine ⟨fun hc => absurd hc hcritnt, fun _ hc => absurd hc hhighnt,
            fun _ _ hc => absurd hc hmednt, fun _ _ _ _ => ?_,
            fun _ _ _ hc => absurd hc hnotnone⟩
          rw [hres]
          exact ⟨hr4.1, hr4.2⟩
        case none =>
          have hlow : Rules.tierMatchesAny event rules.priorities.low = false :=
            (Rules.tierMatchesAny_false_iff event rules.priorities.low
              25 "low" "Low priority match").1 h4
          have hlownt : Rules.tierMatchesAny event rules.priorities.low ≠ true := by
            rw [hlow]
            intro hcc
            cases hcc
          have hres : Rules.calculateEventPriority event rules =
              { score := 50, level := "medium", reasons := ["Default priority"] } := by
            rw [hcalc]
            simp [List.findSome?_cons, List.findSome?_nil, h1, h2, h3, h4]
          exact ⟨fun hc => absurd hc hcritnt, fun _ hc => absurd hc hhighnt,
            fun _ _ hc => absurd hc hmednt, fun _ _ _ hc => absurd hc hlownt,
            fun _ _ _ _ => hres⟩

/-- Witness for claim C3: an event matching a rule present in both the
critical and the low tier scores 100 with level critical. -/
theorem claim_c3_priority_tier_order_witness :
    Rules.tierMatchesAny Rules.sampleRuleEvent Rules.sampleRules.priorities.critical = true ∧
    (Rules.calculateEventPriority Rules.sampleRuleEvent Rules.sampleRules).score = 100 ∧
    (Rules.calculateEventPriority Rules.sampleRuleEvent Rules.sampleRules).level =
      "critical" :=
  ⟨by decide,
    (claim_c3_priority_tier_order Rules.sampleRuleEvent Rules.sampleRules).1 (by decide)⟩

namespace Rules

theorem find?_first {α : Type} (p : α → Bool) :
    ∀ (l : List α) (k : Nat) (hk : k < l.length),
      p (l.get ⟨k, hk⟩) = true →
      (∀ m (hm : m < l.length), m < k → p (l.get ⟨m, hm⟩) = false) →
      l.find? p = some (l.get ⟨k, hk⟩) := by
  intro l
  induction l with
  | nil =>
    intro k hk
    cases hk
  | cons a t ih =>
    intro k hk hp hless
    cases k with
    | zero =>
      exact List.find?_cons_of_pos _ hp
    | succ k =>
      have ha : p a = false := hless 0 (by simp) (by omega)
      rw [List.find?_cons_of_neg _ (by rw [ha]; exact Bool.false_ne_true)]
      have hk' : k < t.length := by simpa using hk
      have hp' : p (t.get ⟨k, hk'⟩) = true := by
        simpa using hp
      have hless' : ∀ m (hm : m < t.length), m < k → p (t.get ⟨m, hm⟩) = false := by
        intro m hm hmk
        have := hless (m + 1) (by simpa using hm) (by omega)
        simpa using this
      have := ih k hk' hp' hless'
      rw [this]
      rfl

end Rules

/-- Claim C4: determineConflictAction evaluates the configured priority
difference rules in declaration order and returns the action of the
first rule whose threshold predicate holds; when no rules are configured
or no predicate holds for the gap it returns the action
manual underscore decision. -/
theorem claim_c4_conflict_action_resolution (priorityDiff : Int)
    (rules : Rules.SchedulingRules) :
    (rules.rules.bind (fun r => r.priorityDifference) = none →
      (Rules.determineConflictAction priorityDiff rules).action = "manual_decision") ∧
    (∀ prs, rules.rules.bind (fun r => r.priorityDifference) = some prs →
      ((∀ r ∈ prs, Rules.pdHit priorityDiff r = false) →
        (Rules.determineConflictAction priorityDiff rules).action = "manual_decision") ∧
      (∀ k, (hk : k < prs.length) →
        Rules.pdHit priorityDiff (prs.get ⟨k, hk⟩) = true →
        (∀ m (hm : m < prs.length), m < k →
          Rules.pdHit priorityDiff (prs.get ⟨m, hm⟩) = false) →
        Rules.determineConflictAction priorityDiff rules =
          { action := (prs.get ⟨k, hk⟩).thenAction
            description := (prs.get ⟨k, hk⟩).description.getD "" })) := by
  constructor
  · intro hnone
    unfold Rules.determineConflictAction
    simp only [hnone]
  · intro prs hsome
    constructor
    · intro hall
      unfold Rules.determineConflictAction
      simp only [hsome]
      have hfind : prs.find? (fun rule => Rules.pdHit priorityDiff rule) = none :=
        List.find?_eq_none.2 (fun x hx hpx => by rw [hall x hx] at hpx; cases hpx)
      simp only [hfind]
    · intro k hk hp hless
      unfold Rules.determineConflictAction
      simp only [hsome]
      simp only [Rules.find?_first (fun rule => Rules.pdHit priorityDiff rule) prs k hk hp
        hless]

/-- Witness for claim C4: with one configured rule firing above a gap of
fifty, a gap of sixty resolves to the configured action, at position
zero of the declaration order. -/
theorem claim_c4_conflict_action_resolution_witness :
    Rules.determineConflictAction 60 Rules.samplePdRules =
      { action := "reschedule_lower_priority", description := "Large gap" } :=
  ((claim_c4_conflict_action_resolution 60 Rules.samplePdRules).2 [Rules.samplePdRule]
    rfl).2 0 (by decide) (by decide) (fun m hm hmk => by omega)

namespace Slots

theorem slotLoop_mem (duration searchEndTime selectedStart : Int) (selectedId : String)
    (myEvents : List MyEvent) (schedules : List (List Busy)) :
    ∀ (fuel : Nat) (t s e : Int),
      (s, e) ∈ slotLoop duration searchEndTime selectedStart selectedId myEvents schedules
        fuel t →
      t ≤ s ∧ s ≠ selectedStart := by
  intro fuel
  induction fuel with
  | zero =>
    intro t s e hmem
    cases hmem
  | succ fuel ih =>
    intro t s e hmem
    unfold slotLoop at hmem
    by_cases hguard : t < searchEndTime ∧ t + duration ≤ searchEndTime
    · rw [if_pos hguard] at hmem
      by_cases hsel : t = selectedStart
      · rw [if_pos hsel] at hmem
        have := ih (t + 30) s e hmem
        exact ⟨by omega, this.2⟩
      · rw [if_neg hsel] at hmem
        by_cases havail : isSlotAvailable t (t + duration) selectedId myEvents schedules = true
        · rw [if_pos havail] at hmem
          rcases List.mem_cons.1 hmem with hmem | hmem
          · rw [Prod.mk.injEq] at hmem
            obtain ⟨rfl, -⟩ := hmem
            exact ⟨le_refl _, hsel⟩
          · have := ih (t + 30) s e hmem
            exact ⟨by omega, this.2⟩
        · rw [if_neg havail] at hmem
          have := ih (t + 30) s e hmem
          exact ⟨by omega, this.2⟩
    · rw [if_neg hguard] at hmem
      cases hmem

theorem createSlotLoop_mem (duration searchEndTime : Int) (myEvents : List MyEvent)
    (schedules : List CreateSchedule) (alignedNow : Int) :
    ∀ (fuel : Nat) (t s e : Int),
      (s, e) ∈ createSlotLoop duration searchEndTime myEvents schedules alignedNow fuel t →
      t ≤ s := by
  intro fuel
  induction fuel with
  | zero =>
    intro t s e hmem
    cases hmem
  | succ fuel ih =>
    intro t s e hmem
    unfold createSlotLoop at hmem
    by_cases hguard : t < searchEndTime ∧ t + duration ≤ searchEndTime
    · rw [if_pos hguard] at hmem
      by_cases havail :
          createIsSlotAvailable t (t + duration) myEvents schedules alignedNow = true
      · rw [if_pos havail] at hmem
        rcases List.mem_cons.1 hmem with hmem | hmem
        · rw [Prod.mk.injEq] at hmem
          obtain ⟨rfl, -⟩ := hmem
          exact le_refl _
        · have := ih (t + 30) s e hmem
          omega
      · rw [if_neg havail] at hmem
        have := ih (t + 30) s e hmem
        omega
    · rw [if_neg hguard] at hmem
      cases hmem

end Slots

/-- Claim C5: in the reschedule search, no returned candidate slot of the
first search day starts before now plus thirty minutes, and no returned
candidate slot starts at the original start of the selected event; the
create search obeys the same first day clamp. -/
theorem claim_c5_slot_search_bounds (dayNine now duration selectedStart : Int)
    (selectedId : String) (myEvents : List Slots.MyEvent)
    (schedules : List (List Slots.Busy)) (myEvents2 : List Slots.MyEvent)
    (schedules2 : List Slots.CreateSchedule) (alignedNow : Int) (dayIndex : Nat) :
    (∀ s e, (s, e) ∈ Slots.findSlotsForDay dayNine now duration selectedStart selectedId
        myEvents schedules dayIndex →
      (dayIndex = 0 → now + 30 ≤ s) ∧ s ≠ selectedStart) ∧
    (∀ s e, (s, e) ∈ Slots.findDaySlots dayNine now duration myEvents2 schedules2
        alignedNow dayIndex →
      dayIndex = 0 → now + 30 ≤ s) := by
  have hdef1 : Slots.findSlotsForDay dayNine now duration selectedStart selectedId
      myEvents schedules dayIndex =
      Slots.slotLoop duration (dayNine + 600) selectedStart selectedId myEvents schedules
        ((dayNine + 600 -
          (if dayIndex = 0 then
            (if now + 30 > dayNine then now + 30 else dayNine) else dayNine)).toNat + 1)
        (if dayIndex = 0 then
          (if now + 30 > dayNine then now + 30 else dayNine) else dayNine) := rfl
  have hdef2 : Slots.findDaySlots dayNine now duration myEvents2 schedules2
      alignedNow dayIndex =
      Slots.createSlotLoop duration (dayNine + 600) myEvents2 schedules2 alignedNow
        ((dayNine + 600 -
          (if dayIndex = 0 then
            (if now + 30 > dayNine then now + 30 else dayNine) else dayNine)).toNat + 1)
        (if dayIndex = 0 then
          (if now + 30 > dayNine then now + 30 else dayNine) else dayNine) := rfl
  constructor
  · intro s e hmem
    rw [hdef1] at hmem
    have hbase := Slots.slotLoop_mem duration (dayNine + 600) selectedStart selectedId
      myEvents schedules _ _ s e hmem
    refine ⟨?_, hbase.2⟩
    intro h0
    rw [if_pos h0] at hbase
    by_cases hclamp : now + 30 > dayNine
    · rw [if_pos hclamp] at hbase
      exact hbase.1
    · rw [if_neg hclamp] at hbase
      have := hbase.1
      omega
  · intro s e hmem h0
    rw [hdef2] at hmem
    have hbase := Slots.createSlotLoop_mem duration (dayNine + 600) myEvents2 schedules2
      alignedNow _ _ s e hmem
    rw [if_pos h0] at hbase
    by_cases hclamp : now + 30 > dayNine
    · rw [if_pos hclamp] at hbase
      exact hbase
    · rw [if_neg hclamp] at hbase
      omega

theorem claim_c5_slot_search_bounds_witness :
    (500 : Int) + 30 ≤ 540 ∧ (540 : Int) ≠ 600 := by
  have h := (claim_c5_slot_search_bounds 540 500 30 600 "sel" [] [] [] [] 500 0).1
    540 570 (by decide)
  exact ⟨h.1 rfl, h.2⟩

/-- Claim C6 (amended): in the event creation search a zero duration busy
window is non blocking (dropping it from the feed never changes the busy
test), but in the reschedule search a zero duration busy window with a non
free status lying inside the trial slot rejects the slot. -/
theorem claim_c6_zero_duration_busy :
    (∀ (ct se : Int) (busy : Slots.Busy) (busyTimes : List Slots.Busy),
      busy.bstart = busy.bend →
      Slots.createBusyBlocks ct se (busy :: busyTimes) =
        Slots.createBusyBlocks ct se busyTimes) ∧
    (∀ (ct se : Int) (busy : Slots.Busy),
      busy.status ≠ "free" → busy.bstart = busy.bend →
      ct ≤ busy.bstart → busy.bstart ≤ se →
      Slots.areAttendeesAvailable ct se [[busy]] = false) := by
  constructor
  · intro ct se busy busyTimes hzero
    unfold Slots.createBusyBlocks
    rw [List.any_cons, if_pos hzero]
    simp
  · intro ct se busy hfree hzero hle1 hle2
    unfold Slots.areAttendeesAvailable
    simp only [List.all_cons, List.all_nil, Bool.and_true, if_neg hfree,
      Bool.not_eq_true', Bool.not_eq_false]
    unfold Slots.hasTimeConflict
    rw [hzero] at hle1 hle2 ⊢
    have h3 : decide (ct ≤ busy.bend) = true := decide_eq_true hle1
    have h4 : decide (se ≥ busy.bend) = true := decide_eq_true hle2
    rw [h3, h4]
    simp

theorem claim_c6_zero_duration_busy_witness :
    Slots.createBusyBlocks 100 130 [⟨110, 110, "busy"⟩] =
      Slots.createBusyBlocks 100 130 [] ∧
    Slots.areAttendeesAvailable 100 130 [[⟨110, 110, "busy"⟩]] = false :=
  ⟨claim_c6_zero_duration_busy.1 100 130 ⟨110, 110, "busy"⟩ [] rfl,
   claim_c6_zero_duration_busy.2 100 130 ⟨110, 110, "busy"⟩ (by decide) rfl
     (by decide) (by decide)⟩

/-- Counterexample to claim C6 as stated: in the reschedule search the
presence of a zero duration busy window does cause a trial slot to be
rejected, both in the attendee check and in the full slot availability
test. -/
theorem claim_c6_reschedule_counterexample :
    Slots.areAttendeesAvailable 100 130 [[⟨110, 110, "busy"⟩]] = false ∧
    Slots.areAttendeesAvailable 100 130 [[]] = true ∧
    Slots.isSlotAvailable 100 130 "sel" [] [[⟨110, 110, "busy"⟩]] = false ∧
    Slots.isSlotAvailable 100 130 "sel" [] [[]] = true := by decide

namespace Memory

theorem findFile_appendToFile_self (dir : Dir) (name : PartitionName) (l : Line) :
    findFile (appendToFile dir name l) name =
      some ((findFile dir name).getD [] ++ [l]) := by
  induction dir with
  | nil =>
    simp [appendToFile, findFile]
  | cons hd tl ih =>
    obtain ⟨n, c⟩ := hd
    by_cases hn : n = name
    · subst hn
      simp [appendToFile, findFile]
    · simp [appendToFile, findFile, hn, ih]

theorem findFile_appendToFile_other (dir : Dir) (name other : PartitionName) (l : Line)
    (hne : other ≠ name) :
    findFile (appendToFile dir name l) other = findFile dir other := by
  induction dir with
  | nil =>
    simp [appendToFile, findFile, Ne.symm hne]
  | cons hd tl ih =>
    obtain ⟨n, c⟩ := hd
    by_cases hn : n = name
    · subst hn
      simp [appendToFile, findFile, Ne.symm hne]
    · simp [appendToFile, findFile, hn, ih]

theorem findFile_cleanupOldData (dir : Dir) (cutoff : Int) (name : PartitionName) :
    findFile (cleanupOldData dir cutoff) name =
      if name.jsonl = true ∧ name.date < cutoff then none else findFile dir name := by
  induction dir with
  | nil =>
    by_cases hc : name.jsonl = true ∧ name.date < cutoff
    · simp [cleanupOldData, findFile, if_pos hc]
    · simp [cleanupOldData, findFile, if_neg hc]
  | cons hd tl ih =>
    obtain ⟨n, c⟩ := hd
    unfold cleanupOldData at ih ⊢
    rw [List.filter_cons]
    by_cases hkeep : (!(n.jsonl && decide (n.date < cutoff))) = true
    · rw [if_pos hkeep]
      by_cases hn : n = name
      · subst hn
        have hcond : ¬(n.jsonl = true ∧ n.date < cutoff) := by
          intro hcon
          rw [hcon.1, decide_eq_true hcon.2] at hkeep
          exact Bool.false_ne_true hkeep
        rw [if_neg hcond]
        simp [findFile]
      · simp only [findFile, if_neg hn]
        exact ih
    · rw [if_neg hkeep]
      rw [ih]
      by_cases hn : n = name
      · have hcond : name.jsonl = true ∧ name.date < cutoff := by
          subst hn
          have hb := eq_false_of_ne_true hkeep
          simp only [Bool.not_eq_false', Bool.and_eq_true, decide_eq_true_eq] at hb
          exact hb
        rw [if_pos hcond, if_pos hcond]
      · by_cases hc : name.jsonl = true ∧ name.date < cutoff
        · rw [if_pos hc, if_pos hc]
        · rw [if_neg hc, if_neg hc]
          simp [findFile, hn]

theorem todayDate_ge (now retentionDays : Int) (hret : 1 ≤ retentionDays) :
    retentionCutoff now retentionDays < todayDate now := by
  unfold retentionCutoff todayDate
  rw [Int.fdiv_eq_ediv now (by norm_num)]
  omega

end Memory

/-- Claim C7: after a recordDecision write cycle every jsonl partition
dated before the retention cutoff is gone, every jsonl partition inside
the window other than today keeps its exact content, non jsonl entries
are untouched, and the partition of today holds its old content plus the
appended line. -/
theorem claim_c7_retention_cycle (dir : Memory.Dir) (now : Int) (l : Memory.Line)
    (retentionDays : Int) (hret : 1 ≤ retentionDays) :
    (∀ name : Memory.PartitionName, name.jsonl = true →
      name.date < Memory.retentionCutoff now retentionDays →
      Memory.findFile (Memory.recordDecision dir now l retentionDays) name = none) ∧
    (∀ name : Memory.PartitionName, name.jsonl = true →
      Memory.retentionCutoff now retentionDays ≤ name.date →
      name ≠ { date := Memory.todayDate now, jsonl := true } →
      Memory.findFile (Memory.recordDecision dir now l retentionDays) name =
        Memory.findFile dir name) ∧
    (∀ name : Memory.PartitionName, name.jsonl = false →
      Memory.findFile (Memory.recordDecision dir now l retentionDays) name =
        Memory.findFile dir name) ∧
    Memory.findFile (Memory.recordDecision dir now l retentionDays)
        { date := Memory.todayDate now, jsonl := true } =
      some ((Memory.findFile dir { date := Memory.todayDate now, jsonl := true }).getD []
        ++ [l]) := by
  refine ⟨?_, ?_, ?_, ?_⟩
  · intro name hj hd
    unfold Memory.recordDecision
    rw [Memory.findFile_cleanupOldData, if_pos ⟨hj, hd⟩]
  · intro name hj hd hne
    unfold Memory.recordDecision
    rw [Memory.findFile_cleanupOldData, if_neg (fun hcon => absurd hcon.2 (by omega)),
      Memory.findFile_appendToFile_other dir _ name l hne]
  · intro name hj
    unfold Memory.recordDecision
    rw [Memory.findFile_cleanupOldData,
      if_neg (fun hcon => absurd hcon.1 (by rw [hj]; exact Bool.false_ne_true)),
      Memory.findFile_appendToFile_other dir _ name l
        (fun hcon => by rw [hcon] at hj; simp at hj)]
  · unfold Memory.recordDecision
    have hlt := Memory.todayDate_ge now retentionDays hret
    rw [Memory.findFile_cleanupOldData,
      if_neg (fun hcon => absurd hcon.2 (by simp only at hcon ⊢; omega)),
      Memory.findFile_appendToFile_self]

theorem claim_c7_retention_cycle_witness :
    Memory.findFile (Memory.recordDecision
        ([(⟨-2880, true⟩, []), (⟨0, true⟩, [Memory.Line.blank]), (⟨100, false⟩, [])] :
          Memory.Dir) 1500 Memory.Line.blank 2) ⟨-2880, true⟩ = none ∧
    Memory.findFile (Memory.recordDecision
        ([(⟨-2880, true⟩, []), (⟨0, true⟩, [Memory.Line.blank]), (⟨100, false⟩, [])] :
          Memory.Dir) 1500 Memory.Line.blank 2) ⟨0, true⟩ =
      some [Memory.Line.blank] ∧
    Memory.findFile (Memory.recordDecision
        ([(⟨-2880, true⟩, []), (⟨0, true⟩, [Memory.Line.blank]), (⟨100, false⟩, [])] :
          Memory.Dir) 1500 Memory.Line.blank 2) ⟨100, false⟩ = some [] ∧
    Memory.findFile (Memory.recordDecision
        ([(⟨-2880, true⟩, []), (⟨0, true⟩, [Memory.Line.blank]), (⟨100, false⟩, [])] :
          Memory.Dir) 1500 Memory.Line.blank 2) ⟨1440, true⟩ =
      some [Memory.Line.blank] := by
  have h := claim_c7_retention_cycle
    ([(⟨-2880, true⟩, []), (⟨0, true⟩, [Memory.Line.blank]), (⟨100, false⟩, [])] :
      Memory.Dir) 1500 Memory.Line.blank 2 (by decide)
  refine ⟨h.1 ⟨-2880, true⟩ rfl (by decide), ?_, ?_, ?_⟩
  · have h2 := h.2.1 ⟨0, true⟩ rfl (by decide) (by decide)
    rw [h2]
    rfl
  · have h3 := h.2.2.1 ⟨100, false⟩ rfl
    rw [h3]
    rfl
  · have h4 := h.2.2.2
    rw [show ({ date := Memory.todayDate 1500, jsonl := true } : Memory.PartitionName) =
      ⟨1440, true⟩ by rfl] at h4
    rw [h4]
    rfl

/-- Claim C8: suggestPattern never returns a pattern with fewer than five
samples or with approval ratio at or below seven tenths, the hard coded
thresholds of the source. -/
theorem claim_c8_pattern_thresholds (decisions : List Memory.Decision) (p : Memory.Pattern)
    (hmem : p ∈ Memory.suggestPattern decisions) :
    5 ≤ p.sampleCount ∧ mkRat 7 10 < p.approvalRate := by
  unfold Memory.suggestPattern at hmem
  by_cases hlen : decisions.length < 5
  · rw [if_pos hlen] at hmem
    cases hmem
  · rw [if_neg hlen] at hmem
    have hb := (List.mem_filter.1 hmem).2
    rw [Bool.and_eq_true, decide_eq_true_eq, decide_eq_true_eq] at hb
    exact ⟨hb.2, hb.1⟩

theorem claim_c8_pattern_thresholds_witness :
    5 ≤ Memory.samplePattern.sampleCount ∧
      mkRat 7 10 < Memory.samplePattern.approvalRate :=
  claim_c8_pattern_thresholds (List.replicate 5 Memory.sampleDecision)
    Memory.samplePattern (by decide)

/-- Claim C9: loading decisions from a missing directory yields the empty
list, an empty or malformed line is skipped rather than fatal, and the
loaded decisions are exactly those parsed from the remaining lines. -/
theorem claim_c9_malformed_lines_skipped :
    (∀ cutoff : Int, Memory.loadRecentDecisions none cutoff = []) ∧
    (∀ lines : List Memory.Line,
      Memory.readDecisionsFromFile (Memory.Line.blank :: lines) =
          Memory.readDecisionsFromFile lines ∧
        Memory.readDecisionsFromFile (Memory.Line.malformed :: lines) =
          Memory.readDecisionsFromFile lines) ∧
    (∀ lines : List Memory.Line,
      Memory.readDecisionsFromFile lines =
        lines.filterMap Memory.parseDecisionLine) ∧
    (∀ ds : List Memory.Decision,
      Memory.readDecisionsFromFile (ds.map Memory.Line.valid) = ds) := by
  refine ⟨fun cutoff => rfl, fun lines => ⟨rfl, rfl⟩, ?_, ?_⟩
  · intro lines
    induction lines with
    | nil => rfl
    | cons l rest ih =>
      cases l with
      | blank => simpa [Memory.readDecisionsFromFile, Memory.parseDecisionLine] using ih
      | malformed =>
        simpa [Memory.readDecisionsFromFile, Memory.parseDecisionLine] using ih
      | valid d => simpa [Memory.readDecisionsFromFile, Memory.parseDecisionLine] using ih
  · intro ds
    induction ds with
    | nil => rfl
    | cons d rest ih =>
      simpa [Memory.readDecisionsFromFile, Memory.parseDecisionLine] using ih

namespace Memory

theorem filter_userAction_partition (ds : List Decision) :
    (ds.filter (fun d => d.userAction.type = UserActionType.approve)).length +
      (ds.filter (fun d => d.userAction.type = UserActionType.modify)).length +
      (ds.filter (fun d => d.userAction.type = UserActionType.skip)).length =
      ds.length := by
  induction ds with
  | nil => rfl
  | cons d rest ih =>
    cases h : d.userAction.type <;>
      simp only [List.filter_cons, h, List.length_cons] <;>
      simp only [decide_eq_true_eq, reduceCtorEq, if_true, if_false, ite_true, ite_false,
        List.length_cons] <;>
      omega

end Memory

/-- Claim C10 (amended): with no decisions inside the thirty day window,
also when the directory is missing, getStatistics returns the explicit
zero record; with decisions present each rate field is the binary64
double nearest to the count of the matching user action kind over the
total, and the three exact ratios being rounded sum to one. -/
theorem claim_c10_statistics (dirOpt : Option Memory.Dir) (cutoff30 cutoff90 : Int) :
    (Memory.loadRecentDecisions dirOpt cutoff30 = [] →
      Memory.getStatistics dirOpt cutoff30 cutoff90 =
        { totalDecisions := 0, approvalRate := 0, modificationRate := 0, skipRate := 0
          topPatterns := [] }) ∧
    (Memory.getStatistics none cutoff30 cutoff90 =
      { totalDecisions := 0, approvalRate := 0, modificationRate := 0, skipRate := 0
        topPatterns := [] }) ∧
    (Memory.loadRecentDecisions dirOpt cutoff30 ≠ [] →
      (Memory.getStatistics dirOpt cutoff30 cutoff90).approvalRate =
          Memory.fl64 (mkRat ((Memory.loadRecentDecisions dirOpt cutoff30).filter
              (fun d => d.userAction.type = Memory.UserActionType.approve)).length
            (Memory.loadRecentDecisions dirOpt cutoff30).length) ∧
        (Memory.getStatistics dirOpt cutoff30 cutoff90).modificationRate =
          Memory.fl64 (mkRat ((Memory.loadRecentDecisions dirOpt cutoff30).filter
              (fun d => d.userAction.type = Memory.UserActionType.modify)).length
            (Memory.loadRecentDecisions dirOpt cutoff30).length) ∧
        (Memory.getStatistics dirOpt cutoff30 cutoff90).skipRate =
          Memory.fl64 (mkRat ((Memory.loadRecentDecisions dirOpt cutoff30).filter
              (fun d => d.userAction.type = Memory.UserActionType.skip)).length
            (Memory.loadRecentDecisions dirOpt cutoff30).length) ∧
        mkRat ((Memory.loadRecentDecisions dirOpt cutoff30).filter
              (fun d => d.userAction.type = Memory.UserActionType.approve)).length
            (Memory.loadRecentDecisions dirOpt cutoff30).length +
          mkRat ((Memory.loadRecentDecisions dirOpt cutoff30).filter
              (fun d => d.userAction.type = Memory.UserActionType.modify)).length
            (Memory.loadRecentDecisions dirOpt cutoff30).length +
          mkRat ((Memory.loadRecentDecisions dirOpt cutoff30).filter
              (fun d => d.userAction.type = Memory.UserActionType.skip)).length
            (Memory.loadRecentDecisions dirOpt cutoff30).length = 1) := by
  have hd : Memory.getStatistics dirOpt cutoff30 cutoff90 =
      (if (Memory.loadRecentDecisions dirOpt cutoff30).length = 0 then
        { totalDecisions := 0, approvalRate := 0, modificationRate := 0, skipRate := 0
          topPatterns := [] }
      else
        { totalDecisions := (Memory.loadRecentDecisions dirOpt cutoff30).length
          approvalRate :=
            Memory.fl64 (mkRat ((Memory.loadRecentDecisions dirOpt cutoff30).filter
                (fun d => d.userAction.type = Memory.UserActionType.approve)).length
              (Memory.loadRecentDecisions dirOpt cutoff30).length)
          modificationRate :=
            Memory.fl64 (mkRat ((Memory.loadRecentDecisions dirOpt cutoff30).filter
                (fun d => d.userAction.type = Memory.UserActionType.modify)).length
              (Memory.loadRecentDecisions dirOpt cutoff30).length)
          skipRate :=
            Memory.fl64 (mkRat ((Memory.loadRecentDecisions dirOpt cutoff30).filter
                (fun d => d.userAction.type = Memory.UserActionType.skip)).length
              (Memory.loadRecentDecisions dirOpt cutoff30).length)
          topPatterns :=
            (Memory.suggestPattern (Memory.loadRecentDecisions dirOpt cutoff90)).take 3 }) :=
    rfl
  refine ⟨?_, ?_, ?_⟩
  · intro hnil
    rw [hd, hnil]
    rfl
  · rfl
  · intro hne
    have hlen : (Memory.loadRecentDecisions dirOpt cutoff30).length ≠ 0 :=
      fun hcon => hne (List.length_eq_zero.1 hcon)
    rw [hd, if_neg hlen]
    refine ⟨rfl, rfl, rfl, ?_⟩
    have hsum := Memory.filter_userAction_partition (Memory.loadRecentDecisions dirOpt cutoff30)
    rw [Rat.mkRat_eq_div, Rat.mkRat_eq_div, Rat.mkRat_eq_div, div_add_div_same,
      div_add_div_same]
    have hn : (((Memory.loadRecentDecisions dirOpt cutoff30).length : ℚ)) ≠ 0 :=
      Nat.cast_ne_zero.2 hlen
    have hcast : (((((Memory.loadRecentDecisions dirOpt cutoff30).filter
          (fun d => d.userAction.type = Memory.UserActionType.approve)).length : Int) : ℚ) +
        ((((Memory.loadRecentDecisions dirOpt cutoff30).filter
          (fun d => d.userAction.type = Memory.UserActionType.modify)).length : Int) : ℚ) +
        ((((Memory.loadRecentDecisions dirOpt cutoff30).filter
          (fun d => d.userAction.type = Memory.UserActionType.skip)).length : Int) : ℚ)) =
        (((Memory.loadRecentDecisions dirOpt cutoff30).length : Nat) : ℚ) := by
      push_cast
      exact_mod_cast hsum
    rw [hcast, div_self hn]

theorem claim_c10_statistics_witness :
    Memory.getStatistics none 0 0 =
      { totalDecisions := 0, approvalRate := 0, modificationRate := 0, skipRate := 0
        topPatterns := [] } ∧
    (Memory.getStatistics
          (some [(⟨0, true⟩, [Memory.Line.valid Memory.sampleDecision])]) 0 0).approvalRate =
      Memory.fl64 (mkRat ((Memory.loadRecentDecisions
            (some [(⟨0, true⟩, [Memory.Line.valid Memory.sampleDecision])]) 0).filter
          (fun d => d.userAction.type = Memory.UserActionType.approve)).length
        (Memory.loadRecentDecisions
          (some [(⟨0, true⟩, [Memory.Line.valid Memory.sampleDecision])]) 0).length) ∧
    mkRat ((Memory.loadRecentDecisions
            (some [(⟨0, true⟩, [Memory.Line.valid Memory.sampleDecision])]) 0).filter
          (fun d => d.userAction.type = Memory.UserActionType.approve)).length
        (Memory.loadRecentDecisions
          (some [(⟨0, true⟩, [Memory.Line.valid Memory.sampleDecision])]) 0).length +
      mkRat ((Memory.loadRecentDecisions
            (some [(⟨0, true⟩, [Memory.Line.valid Memory.sampleDecision])]) 0).filter
          (fun d => d.userAction.type = Memory.UserActionType.modify)).length
        (Memory.loadRecentDecisions
          (some [(⟨0, true⟩, [Memory.Line.valid Memory.sampleDecision])]) 0).length +
      mkRat ((Memory.loadRecentDecisions
            (some [(⟨0, true⟩, [Memory.Line.valid Memory.sampleDecision])]) 0).filter
          (fun d => d.userAction.type = Memory.UserActionType.skip)).length
        (Memory.loadRecentDecisions
          (some [(⟨0, true⟩, [Memory.Line.valid Memory.sampleDecision])]) 0).length = 1 := by
  have h := claim_c10_statistics
    (some [(⟨0, true⟩, [Memory.Line.valid Memory.sampleDecision])]) 0 0
  exact ⟨(claim_c10_statistics none 0 0).2.1, (h.2.2 (by decide)).1,
    (h.2.2 (by decide)).2.2.2⟩

/-- Counterexample to claim C10 as stated: with six decisions inside the
window, one approval, four modifications and one skip, the three rate
doubles returned by getStatistics are the roundings of one sixth, two
thirds and one sixth, and their exact sum falls one unit in the last
place short of one. -/
theorem claim_c10_rates_sum_counterexample :
    (Memory.getStatistics
          (some [(⟨0, true⟩, [Memory.Line.valid Memory.sampleDecision,
            Memory.Line.valid Memory.sampleDecisionModify,
            Memory.Line.valid Memory.sampleDecisionModify,
            Memory.Line.valid Memory.sampleDecisionModify,
            Memory.Line.valid Memory.sampleDecisionModify,
            Memory.Line.valid Memory.sampleDecisionSkip])]) 0 0).approvalRate +
        (Memory.getStatistics
          (some [(⟨0, true⟩, [Memory.Line.valid Memory.sampleDecision,
            Memory.Line.valid Memory.sampleDecisionModify,
            Memory.Line.valid Memory.sampleDecisionModify,
            Memory.Line.valid Memory.sampleDecisionModify,
            Memory.Line.valid Memory.sampleDecisionModify,
            Memory.Line.valid Memory.sampleDecisionSkip])]) 0 0).modificationRate +
        (Memory.getStatistics
          (some [(⟨0, true⟩, [Memory.Line.valid Memory.sampleDecision,
            Memory.Line.valid Memory.sampleDecisionModify,
            Memory.Line.valid Memory.sampleDecisionModify,
            Memory.Line.valid Memory.sampleDecisionModify,
            Memory.Line.valid Memory.sampleDecisionModify,
            Memory.Line.valid Memory.sampleDecisionSkip])]) 0 0).skipRate =
      mkRat 18014398509481983 18014398509481984 ∧
    (Memory.getStatistics
          (some [(⟨0, true⟩, [Memory.Line.valid Memory.sampleDecision,
            Memory.Line.valid Memory.sampleDecisionModify,
            Memory.Line.valid Memory.sampleDecisionModify,
            Memory.Line.valid Memory.sampleDecisionModify,
            Memory.Line.valid Memory.sampleDecisionModify,
            Memory.Line.valid Memory.sampleDecisionSkip])]) 0 0).approvalRate +
        (Memory.getStatistics
          (some [(⟨0, true⟩, [Memory.Line.valid Memory.sampleDecision,
            Memory.Line.valid Memory.sampleDecisionModify,
            Memory.Line.valid Memory.sampleDecisionModify,
            Memory.Line.valid Memory.sampleDecisionModify,
            Memory.Line.valid Memory.sampleDecisionModify,
            Memory.Line.valid Memory.sampleDecisionSkip])]) 0 0).modificationRate +
        (Memory.getStatistics
          (some [(⟨0, true⟩, [Memory.Line.valid Memory.sampleDecision,
            Memory.Line.valid Memory.sampleDecisionModify,
            Memory.Line.valid Memory.sampleDecisionModify,
            Memory.Line.valid Memory.sampleDecisionModify,
            Memory.Line.valid Memory.sampleDecisionModify,
            Memory.Line.valid Memory.sampleDecisionSkip])]) 0 0).skipRate ≠ 1 := by
  have ha : (Memory.getStatistics
        (some [(⟨0, true⟩, [Memory.Line.valid Memory.sampleDecision,
          Memory.Line.valid Memory.sampleDecisionModify,
          Memory.Line.valid Memory.sampleDecisionModify,
          Memory.Line.valid Memory.sampleDecisionModify,
          Memory.Line.valid Memory.sampleDecisionModify,
          Memory.Line.valid Memory.sampleDecisionSkip])]) 0 0).approvalRate =
      mkRat 6004799503160661 36028797018963968 := by decide
  have hm : (Memory.getStatistics
        (some [(⟨0, true⟩, [Memory.Line.valid Memory.sampleDecision,
          Memory.Line.valid Memory.sampleDecisionModify,
          Memory.Line.valid Memory.sampleDecisionModify,
          Memory.Line.valid Memory.sampleDecisionModify,
          Memory.Line.valid Memory.sampleDecisionModify,
          Memory.Line.valid Memory.sampleDecisionSkip])]) 0 0).modificationRate =
      mkRat 6004799503160661 9007199254740992 := by decide
  have hs : (Memory.getStatistics
        (some [(⟨0, true⟩, [Memory.Line.valid Memory.sampleDecision,
          Memory.Line.valid Memory.sampleDecisionModify,
          Memory.Line.valid Memory.sampleDecisionModify,
          Memory.Line.valid Memory.sampleDecisionModify,
          Memory.Line.valid Memory.sampleDecisionModify,
          Memory.Line.valid Memory.sampleDecisionSkip])]) 0 0).skipRate =
      mkRat 6004799503160661 36028797018963968 := by decide
  rw [ha, hm, hs]
  constructor
  · norm_num [Rat.mkRat_eq_div]
  · norm_num [Rat.mkRat_eq_div]
